import Mathlib

/-!
Verification development for the Backlog Aggregation and Sprint Report Engine
of a work-tracking MCP server.  The TypeScript source is shallowly embedded:
JavaScript objects (`Record<string, T>`) become insertion-ordered association
lists, JavaScript `Set` becomes a duplicate-free list in insertion order,
fallible code runs in `Except String`, and the network backend is an abstract
record of functions.  JavaScript numbers are modelled as `Int` (no claim in
scope depends on fractional or floating-point values; the `avg` division is
modelled by integer division `jsDiv`).  ISO date strings that the source only
ever parses with `new Date(...).getTime()` or reformats with
`split("T")[0]` are modelled by their integer millisecond timestamps.
-/

namespace JiraMcp

/-! ## JavaScript object and string model -/

/-- Lookup in an insertion-ordered association list (JS property read). -/
def getKey {α : Type} : List (String × α) → String → Option α
  | [], _ => none
  | (k, v) :: rest, key => if k = key then some v else getKey rest key

/-- Lookup with a default (models `m[k] || d` and `m[k] ?? d` for our uses). -/
def getKeyD {α : Type} (m : List (String × α)) (key : String) (d : α) : α :=
  (getKey m key).getD d

/-- Property write `m[k] = v`: update in place, or append preserving insertion
order, exactly as a JS object does. -/
def setKey {α : Type} : List (String × α) → String → α → List (String × α)
  | [], key, v => [(key, v)]
  | (k, w) :: rest, key, v =>
      if k = key then (key, v) :: rest else (k, w) :: setKey rest key v

/-- Keys of an association list, in insertion order (JS `Object.keys`). -/
def keysOf {α : Type} (m : List (String × α)) : List String := m.map (·.1)

/-- Values of an association list, in insertion order (JS `Object.values`). -/
def valsOf {α : Type} (m : List (String × α)) : List α := m.map (·.2)

/-- Insertion into a JS `Set` of strings: append only when absent. -/
def setAdd (l : List String) (x : String) : List String :=
  if x ∈ l then l else l ++ [x]

/-- Deduplication in first-occurrence order (JS `[...new Set(list)]`). -/
def jsDedup (l : List String) : List String := l.foldl setAdd []

/-- Character model of the JS whitespace class `\s` (ASCII part). -/
def jsIsSpace (c : Char) : Bool :=
  c = ' ' ∨ c = '\t' ∨ c = '\n' ∨ c = '\r' ∨ c = '\x0b' ∨ c = '\x0c'

/-- Character model of the regex `.` metacharacter: any char except a line
terminator. -/
def dotChar (c : Char) : Bool := ¬ (c = '\n' ∨ c = '\r')

/-- JS `String.prototype.trim` (ASCII whitespace model). -/
def jsTrim (s : String) : String :=
  String.mk (((s.toList.dropWhile jsIsSpace).reverse.dropWhile jsIsSpace).reverse)

/-- JS string truthiness: every string except the empty one is truthy. -/
def jsTruthy (s : String) : Bool := s ≠ ""

/-- Truthiness of an optional numeric argument (`undefined` and `0` falsy). -/
def optNatTruthy : Option Nat → Bool
  | none => false
  | some n => n ≠ 0

/-- Truthiness of an optional string (`undefined` and `""` falsy). -/
def optStrTruthy : Option String → Bool
  | none => false
  | some s => s ≠ ""

/-- Case-insensitive ASCII character comparison (regex `/i` flag model). -/
def charCI (a b : Char) : Bool := a.toLower = b.toLower

/-- Strip a literal pattern case-insensitively from the front of the input. -/
def stripCI : List Char → List Char → Option (List Char)
  | [], cs => some cs
  | _ :: _, [] => none
  | p :: ps, c :: cs => if charCI p c then stripCI ps cs else none

/-- Match `\s+` greedily: at least one whitespace char, then the rest. -/
def stripWsPlus : List Char → Option (List Char)
  | [] => none
  | c :: cs => if jsIsSpace c then some (cs.dropWhile jsIsSpace) else none

/-- Lexicographic comparison of char lists by code point, the model of the
default JS string sort order for the strings in scope. -/
def lexLe : List Char → List Char → Bool
  | [], _ => true
  | _ :: _, [] => false
  | a :: as, b :: bs => if a < b then true else if a = b then lexLe as bs else false

/-- String comparison used by `Array.prototype.sort()` on our keys. -/
def strLe (a b : String) : Bool := lexLe a.toList b.toList

/-- Stable insertion of a string into a sorted list. -/
def insertLe (x : String) : List String → List String
  | [] => [x]
  | y :: rest => if strLe x y then x :: y :: rest else y :: insertLe x rest

/-- Insertion sort, the model of `Array.prototype.sort()` on string keys
(only the resulting order matters, and our key lists are duplicate-free). -/
def sortStr : List String → List String
  | [] => []
  | x :: rest => insertLe x (sortStr rest)

/-- Substring test on char lists, the model of `String.prototype.includes`. -/
def listContains (sub : List Char) : List Char → Bool
  | [] => sub.isEmpty
  | c :: rest => sub.isPrefixOf (c :: rest) || listContains sub rest

/-- JS `haystack.includes(needle)`. -/
def strIncludes (haystack needle : String) : Bool :=
  listContains needle.toList haystack.toList

/-- JS `s.startsWith(prefix)`. -/
def strStartsWith (s p : String) : Bool := p.toList.isPrefixOf s.toList

/-- Model of floating-point division in `avg` resolution.  No claim in scope
depends on the value of a quotient, only on the `count = 0` guard. -/
def jsDiv (a : Int) (b : Nat) : Int := a / (b : Int)

/-- Digit-prefix parse used by the model of `parseFloat`. -/
def parseDigits (cs : List Char) : Option Nat :=
  let ds := cs.takeWhile Char.isDigit
  if ds.isEmpty then none
  else some (ds.foldl (fun acc c => acc * 10 + (c.toNat - 48)) 0)

/-- Model of JS `parseFloat` restricted to the integer part: skip leading
whitespace, optional sign, then a digit prefix; `NaN` becomes `none`.
(The fractional part and exponent notation are not modelled; no claim in
scope exercises them.) -/
def jsParseFloat (s : String) : Option Int :=
  let cs := s.toList.dropWhile jsIsSpace
  match cs with
  | '-' :: rest => (parseDigits rest).map (fun n => -(n : Int))
  | '+' :: rest => (parseDigits rest).map (fun n => (n : Int))
  | rest => (parseDigits rest).map (fun n => (n : Int))

instance {ε α : Type} [DecidableEq ε] [DecidableEq α] : DecidableEq (Except ε α) := fun a b =>
  match a, b with
  | .ok x, .ok y =>
      match decEq x y with
      | isTrue h => isTrue (by rw [h])
      | isFalse h => isFalse (by intro hc; cases hc; exact h rfl)
  | .ok _, .error _ => isFalse (by intro hc; cases hc)
  | .error _, .ok _ => isFalse (by intro hc; cases hc)
  | .error e, .error f =>
      match decEq e f with
      | isTrue h => isTrue (by rw [h])
      | isFalse h => isFalse (by intro hc; cases hc; exact h rfl)

/-! ## Permission layer (src/permissions.ts) -/

/-- Uppercase a string (JS `toUpperCase`, ASCII model). -/
def jsToUpper (s : String) : String := String.mk (s.toList.map Char.toUpper)

/-- Lowercase a string (JS `toLowerCase`, ASCII model). -/
def jsToLower (s : String) : String := String.mk (s.toList.map Char.toLower)

/-- Validity of an issue key against `^([A-Z][A-Z0-9]*)-\d+$` with the `/i`
flag: a letter, then letters or digits, one dash, then at least one digit. -/
def issueKeyParts (key : String) : Option String :=
  match (key.toList.splitOn '-').map String.mk with
  | [p, d] =>
      match p.toList, d.toList with
      | pc :: pcs, dc :: dcs =>
          if pc.isAlpha ∧ pcs.all (fun c => c.isAlpha ∨ c.isDigit)
              ∧ (dc :: dcs).all Char.isDigit then some p else none
      | _, _ => none
  | _ => none

/-- Extract the project key from an issue key, throwing on a malformed key
(src/permissions.ts `getProjectFromIssueKey`). -/
def getProjectFromIssueKey (issueKey : String) : Except String String :=
  match issueKeyParts issueKey with
  | some p => .ok (jsToUpper p)
  | none => .error ("Invalid issue key format: " ++ issueKey)

/-- Project allowlist check (`null` allowlist admits every project). -/
def isProjectAllowed (projectKey : String) (allowlist : Option (List String)) : Bool :=
  match allowlist with
  | none => true
  | some l => jsToUpper projectKey ∈ l

/-- Issue-type allowlist check (`null` allowlist admits every type). -/
def isIssueTypeAllowed (issueType : String) (allowlist : Option (List String)) : Bool :=
  match allowlist with
  | none => true
  | some l => jsToLower issueType ∈ l

/-! ## Issue data model -/

/-- Heterogeneous JSON field value as the engine consumes it: an object with
a `name`, an object with a `displayName`, an array of label strings, an array
of component objects (kept as their names), a number, a raw string, or
absent/null. -/
inductive FieldVal : Type
  | absent
  | named (name : String)
  | person (displayName : String)
  | strs (l : List String)
  | comps (l : List String)
  | num (n : Int)
  | str (s : String)
deriving DecidableEq, Repr

/-- Issue record: a key plus a field map. -/
structure Issue : Type where
  key : String
  fields : List (String × FieldVal)
deriving DecidableEq, Repr

/-- Dimensions usable for grouping (`StatsField` in the source). -/
inductive StatsField : Type
  | status | type | priority | assignee | reporter
  | labels | components | resolution | project
deriving DecidableEq, Repr

/-- Key under which a dimension appears in `groupedBy` output. -/
def StatsField.toKey : StatsField → String
  | .status => "status" | .type => "type" | .priority => "priority"
  | .assignee => "assignee" | .reporter => "reporter" | .labels => "labels"
  | .components => "components" | .resolution => "resolution" | .project => "project"

/-- Pivot aggregation action. -/
inductive PivotAction : Type
  | count | sum | avg | cardinality
deriving DecidableEq, Repr

/-- Pivot request (`PivotConfig` in the source; `action` and `valueField` are
optional there). -/
structure PivotConfig : Type where
  rowField : StatsField
  columnField : StatsField
  action : Option PivotAction
  valueField : Option String
deriving DecidableEq, Repr

/-- Field-filter operator. -/
inductive FilterOp : Type
  | eq | inOp | not | contains | empty | notEmpty
deriving DecidableEq, Repr

/-- Value carried by a field filter: a string, an array, or absent. -/
inductive FilterVal : Type
  | str (s : String)
  | arr (l : List String)
  | absent
deriving DecidableEq, Repr

/-- Rendering of a filter value inside a JS template literal. -/
def FilterVal.render : FilterVal → String
  | .str s => s
  | .arr l => String.intercalate "," l
  | .absent => "undefined"

/-- Field filter. -/
structure FieldFilter : Type where
  field : String
  operator : FilterOp
  value : FilterVal
deriving DecidableEq, Repr

/-- Options of `getBacklogStats`. -/
structure StatsOptions : Type where
  excludeResolved : Bool := false
  issueTypes : Option (List String) := none
  assignees : Option (List String) := none
  sprint : Option Nat := none
  boardId : Option Nat := none
  groupBy : Option (List StatsField) := none
  pivot : Option PivotConfig := none
  fieldFilters : Option (List FieldFilter) := none
deriving DecidableEq, Repr

/-- Field output of the extractor: `string | string[]`. -/
inductive FieldOut : Type
  | single (s : String)
  | multi (l : List String)
deriving DecidableEq, Repr

/-- Normalization `Array.isArray(values) ? values : [values]`. -/
def FieldOut.toList : FieldOut → List String
  | .single s => [s]
  | .multi l => l

/-- Read of `obj?.name || fallback` on a field value. -/
def nameOr (v : FieldVal) (fallback : String) : String :=
  match v with
  | .named n => if n = "" then fallback else n
  | _ => fallback

/-- Read of `obj?.displayName || fallback` on a field value. -/
def displayNameOr (v : FieldVal) (fallback : String) : String :=
  match v with
  | .person d => if d = "" then fallback else d
  | _ => fallback

/-- Read of a mandatory `.name` access (`issue.fields.f.name` with no optional
chaining): a missing or non-object field is a TypeError crash. -/
def reqName (v : FieldVal) : Except String String :=
  match v with
  | .named n => .ok n
  | _ => .error "TypeError: cannot read name of undefined"

/-- Field read on an issue record. -/
def fieldOf (i : Issue) (f : String) : FieldVal := (getKey i.fields f).getD .absent

/-- Extractor of a typed dimension value from an issue (source
`getFieldValue`).  Only the `project` branch can throw, via
`getProjectFromIssueKey`. -/
def getFieldValue (issue : Issue) (field : StatsField) : Except String FieldOut :=
  match field with
  | .status => .ok (.single (nameOr (fieldOf issue "status") "Unknown"))
  | .type => .ok (.single (nameOr (fieldOf issue "issuetype") "Unknown"))
  | .priority => .ok (.single (nameOr (fieldOf issue "priority") "None"))
  | .assignee => .ok (.single (displayNameOr (fieldOf issue "assignee") "Unassigned"))
  | .reporter => .ok (.single (displayNameOr (fieldOf issue "reporter") "Unknown"))
  | .labels =>
      .ok (.multi (match fieldOf issue "labels" with
        | .strs l => l
        | _ => []))
  | .components =>
      .ok (.multi (match fieldOf issue "components" with
        | .comps l => l
        | _ => []))
  | .resolution => .ok (.single (nameOr (fieldOf issue "resolution") "Unresolved"))
  | .project => (getProjectFromIssueKey issue.key).map .single

/-- Numeric value of a field for sum/avg (source `getNumericValue`): a number
directly, a numeric string via `parseFloat` with `NaN` to `null`, anything
else `null`. -/
def getNumericValue (fields : List (String × FieldVal)) (valueField : String) : Option Int :=
  match (getKey fields valueField).getD .absent with
  | .num n => some n
  | .str s => jsParseFloat s
  | _ => none

/-! ## Query builder (the leading part of `getBacklogStats`) -/

/-- Tail match for the regex fragment `ORDER\s+BY\s+.*$` (case-insensitive,
`.` excluding line terminators).  Greedy whitespace consumption is equivalent
to the backtracking search here because no whitespace char can start `BY` or
survive where `.*` rejects a later line terminator. -/
def matchOrderTail (cs : List Char) : Bool :=
  match stripCI ['O', 'R', 'D', 'E', 'R'] cs with
  | none => false
  | some r1 =>
      match stripWsPlus r1 with
      | none => false
      | some r2 =>
          match stripCI ['B', 'Y'] r2 with
          | none => false
          | some r3 =>
              match stripWsPlus r3 with
              | none => false
              | some r4 => r4.all dotChar

/-- Attempt of a match of `\s*(ORDER\s+BY\s+.*)$` at the current position.
Returns the second capture group on success. -/
def tryMatchAt (rest : List Char) : Option (List Char) :=
  let g2 := rest.dropWhile jsIsSpace
  if matchOrderTail g2 then some g2 else none

/-- Scan for the leftmost match position of `^(.*?)\s*(ORDER\s+BY\s+.*)$`:
the lazy first group grows one `.`-compatible char at a time. -/
def extractGo : List Char → List Char → Option (List Char × List Char)
  | pre, [] => (tryMatchAt []).map (fun g2 => (pre, g2))
  | pre, c :: r =>
      match tryMatchAt (c :: r) with
      | some g2 => some (pre, g2)
      | none => if dotChar c then extractGo (pre ++ [c]) r else none

/-- Model of `jql.match(/^(.*?)\s*(ORDER\s+BY\s+.*)$/i)`, returning the two
capture groups. -/
def extractOrderBy (jql : String) : Option (String × String) :=
  (extractGo [] jql.toList).map (fun p => (String.mk p.1, String.mk p.2))

/-- Quote a value for a JQL fragment. -/
def q (s : String) : String := "\"" ++ s ++ "\""

/-- Fragment produced for one field filter (the `switch` on the operator).
The `in` operator produces nothing unless the value is an array. -/
def fieldFilterFragment (f : FieldFilter) : List String :=
  match f.operator with
  | .eq => [f.field ++ " = " ++ q f.value.render]
  | .inOp =>
      match f.value with
      | .arr l => [f.field ++ " IN (" ++ String.intercalate ", " (l.map q) ++ ")"]
      | _ => []
  | .not => [f.field ++ " != " ++ q f.value.render]
  | .contains => [f.field ++ " ~ " ++ q f.value.render]
  | .empty => [f.field ++ " IS EMPTY"]
  | .notEmpty => [f.field ++ " IS NOT EMPTY"]

/-- Filter fragments generated from the structured options, in source order.
`boardFilter` is the fragment list contributed by the board lookup (the one
network call of the query builder, performed by the caller). -/
def buildFilters (boardFilter : List String) (options : StatsOptions) : List String :=
  boardFilter
    ++ (if options.excludeResolved then ["resolution IS EMPTY"] else [])
    ++ (match options.issueTypes with
        | some types =>
            if types.length > 0 then
              ["issuetype IN (" ++ String.intercalate ", " (types.map q) ++ ")"]
            else []
        | none => [])
    ++ (match options.assignees with
        | some as =>
            if as.length > 0 then
              ["(" ++ String.intercalate " OR "
                  (as.map (fun a =>
                    if jsToLower a = "unassigned" then "assignee IS EMPTY"
                    else "assignee = " ++ q a)) ++ ")"]
            else []
        | none => [])
    ++ (match options.sprint with
        | some n => if n ≠ 0 then ["sprint = " ++ toString n] else []
        | none => [])
    ++ (match options.fieldFilters with
        | some ffs => ffs.flatMap fieldFilterFragment
        | none => [])

/-- Composition of the final JQL string: extract a trailing `ORDER BY` clause,
join the base with the generated fragments using `AND` (guarding an empty
base), then re-append the held-aside clause. -/
def buildJql (jql : String) (boardFilter : List String) (options : StatsOptions) : String :=
  let parts := match extractOrderBy jql with
    | some g => (jsTrim g.1, g.2)
    | none => (jql, "")
  let baseJql := parts.1
  let orderByClause := parts.2
  let filters := buildFilters boardFilter options
  let finalJql0 := jsTrim baseJql
  let finalJql1 :=
    if filters.length > 0 then
      if jsTruthy finalJql0 then finalJql0 ++ " AND " ++ String.intercalate " AND " filters
      else String.intercalate " AND " filters
    else finalJql0
  if jsTruthy orderByClause then finalJql1 ++ " " ++ orderByClause else finalJql1

/-! ## Backend interface and aggregation state -/

/-- One page of a search response, as `getBacklogStats` consumes it. -/
structure SearchPage : Type where
  issues : List Issue
  total : Option Nat := none
  isLast : Bool := false
  nextPageToken : Option String := none
deriving DecidableEq, Repr

/-- Sprint metadata (`getSprint`); the ISO `startDate` string is modelled by
its millisecond timestamp. -/
structure Sprint : Type where
  id : Nat
  name : String
  startDate : Option Int := none
deriving DecidableEq, Repr

/-- One changelog item (`{ field, toString }`). -/
structure ChangeItem : Type where
  field : String
  toStr : Option String := none
deriving DecidableEq, Repr

/-- One changelog entry; `created` is the modelled timestamp of the ISO
string the source passes to `new Date(...).getTime()`. -/
structure ChangeEntry : Type where
  created : Int
  items : List ChangeItem
deriving DecidableEq, Repr

/-- Changelog response (`values` is all the engine reads). -/
structure Changelog : Type where
  values : List ChangeEntry
deriving DecidableEq, Repr

/-- Board lookup result (`board.location?.projectKey`). -/
structure BoardLoc : Type where
  projectKey : Option String := none
deriving DecidableEq, Repr

/-- Abstract deterministic backend: every consumed network capability as a
function into `Except String`.  `searchIssues` takes the JQL, `startAt`,
`maxResults`, the requested fields and the continuation token, exactly as the
client method does. -/
structure Backend : Type where
  searchIssues : String → Nat → Nat → List String → Option String → Except String SearchPage
  getBoard : Nat → Except String BoardLoc
  getFields : Except String (List (String × String))
  getSprint : Nat → Except String Sprint
  getIssueChangelog : String → Nat → Nat → Except String Changelog

/-- Running pivot cell: count, sum, and the distinct-key `Set` (insertion
order, duplicate-free by construction). -/
structure Cell : Type where
  count : Nat := 0
  sum : Int := 0
  values : List String := []
deriving DecidableEq, Repr

/-- Running row/column/grand total accumulator. -/
structure Tot : Type where
  count : Nat := 0
  sum : Int := 0
deriving DecidableEq, Repr

/-- Mutable aggregation state of one `getBacklogStats` run. -/
structure AggSt : Type where
  analyzed : Nat := 0
  byStatus : List (String × Nat) := []
  byType : List (String × Nat) := []
  byPriority : List (String × Nat) := []
  byAssignee : List (String × Nat) := []
  byTypeAndStatus : List (String × List (String × Nat)) := []
  groupedBy : List (String × List (String × Nat)) := []
  pivotData : List (String × List (String × Cell)) := []
  pivotRowTotals : List (String × Tot) := []
  pivotColTotals : List (String × Tot) := []
  pivotGrand : Tot := {}
deriving DecidableEq, Repr

/-- Counter increment `m[k] = (m[k] || 0) + 1`. -/
def bump (m : List (String × Nat)) (k : String) : List (String × Nat) :=
  setKey m k (getKeyD m k 0 + 1)

/-- Nested counter increment for the type-to-status cross tab. -/
def bump2 (m : List (String × List (String × Nat))) (k1 k2 : String) :
    List (String × List (String × Nat)) :=
  setKey m k1 (bump (getKeyD m k1 []) k2)

/-- Pivot accumulation for one `(row, col)` pair: create the cell on demand,
then advance its count, sum and distinct-key set together with the row,
column and grand totals. -/
def pivotStep (st : AggSt) (row col : String) (numericValue : Int) (issueKey : String) :
    AggSt :=
  let rowMap := getKeyD st.pivotData row []
  let cell := getKeyD rowMap col {}
  let cell2 : Cell :=
    { count := cell.count + 1, sum := cell.sum + numericValue,
      values := setAdd cell.values issueKey }
  let rowTot := getKeyD st.pivotRowTotals row {}
  let colTot := getKeyD st.pivotColTotals col {}
  { st with
    pivotData := setKey st.pivotData row (setKey rowMap col cell2),
    pivotRowTotals := setKey st.pivotRowTotals row
      { count := rowTot.count + 1, sum := rowTot.sum + numericValue },
    pivotColTotals := setKey st.pivotColTotals col
      { count := colTot.count + 1, sum := colTot.sum + numericValue },
    pivotGrand :=
      { count := st.pivotGrand.count + 1, sum := st.pivotGrand.sum + numericValue } }

/-- Cross-product accumulation over every row value and column value of one
issue. -/
def pivotCross (st : AggSt) (rowArray colArray : List String) (numericValue : Int)
    (issueKey : String) : AggSt :=
  rowArray.foldl
    (fun st1 row => colArray.foldl (fun st2 col => pivotStep st2 row col numericValue issueKey) st1)
    st

/-- Default aggregation pass of one analyzed issue (`byStatus`, `byType`,
the type-to-status cross tab, `byPriority`, `byAssignee`); the status read is
a mandatory `.name` access. -/
def applyDefaults (issue : Issue) (typeName : String) (st : AggSt) : Except String AggSt := do
  let status ← reqName (fieldOf issue "status")
  let st := { st with byStatus := bump st.byStatus status }
  let st := { st with byType := bump st.byType typeName }
  let st := { st with byTypeAndStatus := bump2 st.byTypeAndStatus typeName status }
  let priority := nameOr (fieldOf issue "priority") "None"
  let st := { st with byPriority := bump st.byPriority priority }
  let assignee := displayNameOr (fieldOf issue "assignee") "Unassigned"
  pure { st with byAssignee := bump st.byAssignee assignee }

/-- Dynamic groupBy pass for one requested dimension of one issue: one bump
per member value. -/
def groupByStep (issue : Issue) (st1 : AggSt) (field : StatsField) : Except String AggSt := do
  let values ← getFieldValue issue field
  let inner := values.toList.foldl (fun m val => bump m val)
    (getKeyD st1.groupedBy field.toKey [])
  pure { st1 with groupedBy := setKey st1.groupedBy field.toKey inner }

/-- Numeric value carried into the pivot accumulation (1 for count and
cardinality, the extracted value-field number defaulted to 0 otherwise). -/
def resolveNumericValue (pc : PivotConfig) (issue : Issue) : Int :=
  match pc.valueField with
  | some vf => if jsTruthy vf then (getNumericValue issue.fields vf).getD 0 else 1
  | none => 1

/-- Pivot pass of one issue: extract row and column values, normalize to
arrays, accumulate over the cross product. -/
def applyPivot (pc : PivotConfig) (issue : Issue) (st : AggSt) : Except String AggSt := do
  let rowValues ← getFieldValue issue pc.rowField
  let colValues ← getFieldValue issue pc.columnField
  pure (pivotCross st rowValues.toList colValues.toList (resolveNumericValue pc issue)
    issue.key)

/-- Dynamic groupBy pass followed by the pivot pass of one analyzed issue. -/
def processTail (options : StatsOptions) (issue : Issue) (st : AggSt) :
    Except String AggSt := do
  let st ← (options.groupBy.getD []).foldlM (groupByStep issue) st
  match options.pivot with
  | none => pure st
  | some pc => applyPivot pc issue st

/-- Processing of one fetched issue inside the pagination loop: allowlist
filtering (with JS short-circuit order), the default aggregations, the
dynamic groupBy pass, and the pivot pass. -/
def processIssue (options : StatsOptions)
    (projectAllowlist issueTypeAllowlist : Option (List String))
    (st : AggSt) (issue : Issue) : Except String AggSt := do
  let projectKey ← getProjectFromIssueKey issue.key
  if ¬ isProjectAllowed projectKey projectAllowlist then
    pure st
  else do
    let typeName ← reqName (fieldOf issue "issuetype")
    if ¬ isIssueTypeAllowed typeName issueTypeAllowlist then
      pure st
    else do
      let st := { st with analyzed := st.analyzed + 1 }
      let st ← if options.groupBy.isNone then applyDefaults issue typeName st else pure st
      processTail options issue st

/-- Sequential processing of the issues of one page. -/
def processIssues (options : StatsOptions)
    (projectAllowlist issueTypeAllowlist : Option (List String)) :
    AggSt → List Issue → Except String AggSt
  | st, [] => .ok st
  | st, issue :: rest =>
      match processIssue options projectAllowlist issueTypeAllowlist st issue with
      | .error e => .error e
      | .ok st2 => processIssues options projectAllowlist issueTypeAllowlist st2 rest

/-- Token-based pagination loop (`while pageCount < 40`), returning the final
state, the last backend-reported total, and the number of search calls made.
`fuel` is the remaining page budget, initially 40. -/
def fetchLoop (search : Option String → Except String SearchPage)
    (options : StatsOptions)
    (projectAllowlist issueTypeAllowlist : Option (List String)) :
    Nat → Option String → AggSt → Nat → Nat → Except String (AggSt × Nat × Nat)
  | 0, _, st, totalFromJira, calls => .ok (st, totalFromJira, calls)
  | fuel + 1, token, st, totalFromJira, calls =>
      match search token with
      | .error e => .error e
      | .ok response =>
          let total2 := match response.total with
            | some t => t
            | none => totalFromJira
          if response.issues.length = 0 then .ok (st, total2, calls + 1)
          else
            match processIssues options projectAllowlist issueTypeAllowlist st response.issues with
            | .error e => .error e
            | .ok st2 =>
                if response.isLast ∨ ¬ optStrTruthy response.nextPageToken then
                  .ok (st2, total2, calls + 1)
                else
                  fetchLoop search options projectAllowlist issueTypeAllowlist
                    fuel response.nextPageToken st2 total2 (calls + 1)

/-! ## Result construction for `getBacklogStats` -/

/-- Totals block of the returned pivot table. -/
structure PivotTotals : Type where
  rows : List (String × Int)
  columns : List (String × Int)
  grand : Int
deriving DecidableEq, Repr

/-- Returned pivot table. -/
structure PivotOut : Type where
  rows : List String
  columns : List String
  data : List (String × List (String × Int))
  totals : PivotTotals
  valueFieldName : Option String := none
deriving DecidableEq, Repr

/-- Result of `getBacklogStats`. -/
structure StatsResult : Type where
  total : Nat
  analyzed : Nat
  byStatus : Option (List (String × Nat)) := none
  byType : Option (List (String × Nat)) := none
  byPriority : Option (List (String × Nat)) := none
  byAssignee : Option (List (String × Nat)) := none
  byTypeAndStatus : Option (List (String × List (String × Nat))) := none
  groupedBy : Option (List (String × List (String × Nat))) := none
  pivot : Option PivotOut := none
deriving DecidableEq, Repr

/-- Cell read `pivotData[row]?.[col]`. -/
def getCell (pdata : List (String × List (String × Cell))) (row col : String) : Option Cell :=
  (getKey pdata row).bind (fun m => getKey m col)

/-- Resolution of one output cell according to the requested action (an
absent cell reads as 0). -/
def cellValue (action : PivotAction) : Option Cell → Int
  | none => 0
  | some cell =>
      match action with
      | .count => cell.count
      | .sum => cell.sum
      | .avg => if cell.count > 0 then jsDiv cell.sum cell.count else 0
      | .cardinality => cell.values.length

/-- Resolution of one row total according to the action; `cardinality` sums
the per-cell distinct-key sizes across the row. -/
def rowTotalValue (action : PivotAction) (st : AggSt) (row : String) : Int :=
  match action with
  | .count => (getKeyD st.pivotRowTotals row {}).count
  | .sum => (getKeyD st.pivotRowTotals row {}).sum
  | .avg =>
      let t := getKeyD st.pivotRowTotals row {}
      if t.count ≠ 0 then jsDiv t.sum t.count else 0
  | .cardinality =>
      (valsOf (getKeyD st.pivotData row [])).foldl (fun acc c => acc + (c.values.length : Int)) 0

/-- Resolution of one column total; `cardinality` recomputes a fresh
distinct-key union down the column. -/
def colTotalValue (action : PivotAction) (st : AggSt) (rows : List String) (col : String) : Int :=
  match action with
  | .count => (getKeyD st.pivotColTotals col {}).count
  | .sum => (getKeyD st.pivotColTotals col {}).sum
  | .avg =>
      let t := getKeyD st.pivotColTotals col {}
      if t.count ≠ 0 then jsDiv t.sum t.count else 0
  | .cardinality =>
      (jsDedup (rows.flatMap (fun row =>
        match getCell st.pivotData row col with
        | some c => c.values
        | none => []))).length

/-- Resolution of the grand total; for `cardinality` the source reads the
`analyzed` counter (commented `Total unique issues`), not a key union. -/
def grandValue (action : PivotAction) (st : AggSt) : Int :=
  match action with
  | .count => st.pivotGrand.count
  | .sum => st.pivotGrand.sum
  | .avg => if st.pivotGrand.count ≠ 0 then jsDiv st.pivotGrand.sum st.pivotGrand.count else 0
  | .cardinality => st.analyzed

/-- Conversion of the accumulated pivot state into the returned table. -/
def finalizePivot (pc : PivotConfig) (resolvedValueFieldName : Option String) (st : AggSt) :
    PivotOut :=
  let action := pc.action.getD .count
  let rows := sortStr (keysOf st.pivotData)
  let columns := sortStr (jsDedup (rows.flatMap (fun r => keysOf (getKeyD st.pivotData r []))))
  { rows := rows
    columns := columns
    data := rows.map (fun row =>
      (row, columns.map (fun col => (col, cellValue action (getCell st.pivotData row col)))))
    totals :=
      { rows := rows.map (fun row => (row, rowTotalValue action st row))
        columns := columns.map (fun col => (col, colTotalValue action st rows col))
        grand := grandValue action st }
    valueFieldName := resolvedValueFieldName }

/-- Initial aggregation state: the dynamic groupBy maps are pre-created
empty, in request order. -/
def initAggSt (options : StatsOptions) : AggSt :=
  { groupedBy := (options.groupBy.getD []).foldl (fun m f => setKey m f.toKey []) [] }

/-- Fields requested from the search backend, as an insertion-ordered set. -/
def computeSearchFields (options : StatsOptions) : List String :=
  let base := ["status", "issuetype", "priority", "assignee"]
  let addOne := fun (acc : List String) (f : StatsField) =>
    match f with
    | .type => setAdd acc "issuetype"
    | .reporter => setAdd acc "reporter"
    | .labels => setAdd acc "labels"
    | .components => setAdd acc "components"
    | .resolution => setAdd acc "resolution"
    | _ => acc
  let afterGroup := match options.groupBy with
    | some fs => fs.foldl addOne base
    | none => base
  match options.pivot with
  | some pc =>
      let a := addOne (addOne afterGroup pc.rowField) pc.columnField
      match pc.valueField with
      | some vf => if vf ≠ "" then setAdd a vf else a
      | none => a
  | none => afterGroup

/-- Assembly of the returned `StatsResult` from the loop outcome. -/
def buildStatsResult (options : StatsOptions) (st : AggSt) (totalFromJira : Nat)
    (resolvedValueFieldName : Option String) : StatsResult :=
  let useDefaultGroups := options.groupBy.isNone
  let groupByFields := options.groupBy.getD []
  { total := if totalFromJira ≠ 0 then totalFromJira else st.analyzed
    analyzed := st.analyzed
    byStatus := if useDefaultGroups then some st.byStatus else none
    byType := if useDefaultGroups then some st.byType else none
    byPriority := if useDefaultGroups then some st.byPriority else none
    byAssignee := if useDefaultGroups then some st.byAssignee else none
    byTypeAndStatus := if useDefaultGroups then some st.byTypeAndStatus else none
    groupedBy := if groupByFields.length > 0 then some st.groupedBy else none
    pivot := options.pivot.map (fun pc => finalizePivot pc resolvedValueFieldName st) }

/-- Whether the pivot value field needs catalog-based name resolution. -/
def needsFieldNames (options : StatsOptions) : Bool :=
  match options.pivot with
  | some pc =>
      match pc.valueField with
      | some vf => strStartsWith vf "customfield_"
      | none => false
  | none => false

/-- Resolution of the custom field id to its human name
(`fieldNames[id] || id`). -/
def resolveValueFieldName (allFields : List (String × String)) (options : StatsOptions) :
    Option String :=
  let fieldNames := allFields.foldl (fun m p => setKey m p.1 p.2) []
  match options.pivot with
  | some pc =>
      match pc.valueField with
      | some vf =>
          if vf ≠ "" then
            some (match getKey fieldNames vf with
              | some nm => if nm ≠ "" then nm else vf
              | none => vf)
          else none
      | none => none
  | none => none

/-- Board-to-project resolution of the query builder (the one network call
it makes, skipped for an absent or zero `boardId`). -/
def resolveBoardFilter (b : Backend) (options : StatsOptions) :
    Except String (List String) :=
  match options.boardId with
  | some bid =>
      if bid ≠ 0 then do
        let board ← b.getBoard bid
        pure (match board.projectKey with
          | some pk => if pk ≠ "" then ["project = " ++ q pk] else []
          | none => [])
      else pure ([] : List String)
  | none => pure ([] : List String)

/-- Custom-field name resolution via the field catalog, performed only when
the pivot value field is a custom field. -/
def resolveFieldName (b : Backend) (options : StatsOptions) :
    Except String (Option String) :=
  if needsFieldNames options then do
    let allFields ← b.getFields
    pure (resolveValueFieldName allFields options)
  else pure (none : Option String)

/-- Fetch-and-aggregate core of `getBacklogStats`: board-aware query
composition, custom-field name resolution, and the token-paginated fetch
loop.  Returns the final aggregation state, the backend-reported total, the
call count and the resolved value-field name. -/
def getBacklogStatsCore (b : Backend) (jql : String) (options : StatsOptions)
    (projectAllowlist issueTypeAllowlist : Option (List String)) :
    Except String ((AggSt × Nat × Nat) × Option String) := do
  let boardFilter ← resolveBoardFilter b options
  let resolvedValueFieldName ← resolveFieldName b options
  let out ← fetchLoop
    (fun tok => b.searchIssues (buildJql jql boardFilter options) 0 100
      (computeSearchFields options) tok)
    options projectAllowlist issueTypeAllowlist 40 none (initAggSt options) 0 0
  pure (out, resolvedValueFieldName)

/-- Backlog statistics engine (source `getBacklogStats`): the core run above
followed by result assembly. -/
def getBacklogStats (b : Backend) (jql : String) (options : StatsOptions)
    (projectAllowlist issueTypeAllowlist : Option (List String)) :
    Except String StatsResult :=
  (getBacklogStatsCore b jql options projectAllowlist issueTypeAllowlist).map
    (fun out => buildStatsResult options out.1.1 out.1.2.1 out.2)

/-! ## Sprint report composer (`getSprintReport`) -/

/-- Default status-group map, in source order. -/
def DEFAULT_STATUS_GROUPS : List (String × List String) :=
  [("To Do", ["To Do", "Open", "Reopened"]),
   ("Blocked", ["Blocked"]),
   ("In Progress", ["In Progress", "Ready to Style"]),
   ("Design Review", ["Design Review"]),
   ("To Test", ["Ready to Test", "To Test", "In Review"]),
   ("Done", ["Done", "Closed", "Invalid", "Parked", "Resolved"])]

/-- Issue-count plus story-point pair. -/
structure SprintReportMetrics : Type where
  issues : Nat
  storyPoints : Int
deriving DecidableEq, Repr

/-- Current/previous pair of metrics. -/
structure SprintReportRow : Type where
  current : SprintReportMetrics
  previous : Option SprintReportMetrics := none
deriving DecidableEq, Repr

/-- Complete/not-complete label metrics. -/
structure LabelMetrics : Type where
  complete : SprintReportMetrics
  notComplete : SprintReportMetrics
deriving DecidableEq, Repr

/-- Current/previous label metrics. -/
structure LabelRow : Type where
  current : LabelMetrics
  previous : Option LabelMetrics := none
deriving DecidableEq, Repr

/-- Composed sprint report (the source nests the bug rows under `bugs`;
they are flattened here with `bugs` prefixes). -/
structure SprintReportResult : Type where
  currentSprintId : Nat
  currentSprintName : String
  previousSprint : Option (Nat × String) := none
  storyPointsField : String
  storyPointsFieldName : Option String := none
  statusGroups : List (String × SprintReportRow)
  triage : Option SprintReportRow := none
  inflow : Option SprintReportRow := none
  bugsBacklogTotal : SprintReportMetrics
  bugsFixedInSprint : SprintReportRow
  bugsNotFixedInSprint : SprintReportRow
  labels : List (String × LabelRow)
deriving DecidableEq, Repr

/-- Options of `getSprintReport`. -/
structure ReportOptions : Type where
  sprintId : Nat
  previousSprintId : Option Nat := none
  storyPointsField : String
  labelsOfInterest : Option (List String) := none
  statusGroups : Option (List (String × List String)) := none
  projectKey : String
  includeTriage : Bool := false
  includeInflow : Bool := false
deriving DecidableEq, Repr

/-- Model of `sprintStartDate.split("T")[0]`: the date-only rendering of the
modelled timestamp, opaque to the abstract backend. -/
def dayStr (t : Int) : String := toString t

/-- JS `opt?.includes(needle)` coerced to a condition (undefined is falsy). -/
def jsOptIncludes (o : Option String) (needle : String) : Bool :=
  match o with
  | some s => strIncludes s needle
  | none => false

/-- Fetch of the previous sprint metadata, performed only when a previous
sprint id was supplied (JS truthiness: 0 or absent skips it). -/
def fetchPreviousSprint (b : Backend) (options : ReportOptions) :
    Except String (Option Sprint) :=
  if optNatTruthy options.previousSprintId then do
    let s ← b.getSprint (options.previousSprintId.getD 0)
    pure (some s)
  else pure none

/-- One aggregator run for a sprint, exactly as the composer requests it.
The allowlists are passed on in the argument order of the source call site
(`issueTypeAllowlist` first), which feeds the `projectAllowlist` parameter of
`getBacklogStats` with the issue-type allowlist and vice versa. -/
def getSprintStats (b : Backend) (options : ReportOptions)
    (issueTypeAllowlist projectAllowlist : Option (List String)) (sprintId : Nat) :
    Except String StatsResult :=
  getBacklogStats b ("project = " ++ options.projectKey)
    { sprint := some sprintId
      groupBy := some [.status]
      pivot := some { rowField := .status, columnField := .type, action := some .sum,
                      valueField := some options.storyPointsField } }
    issueTypeAllowlist projectAllowlist

/-- Metrics of one status group from a single aggregator run: issue count
from the status grouping, story points by summing the pivot row across all
type columns. -/
def aggregateStatusGroup (stats : StatsResult) (statuses : List String) :
    SprintReportMetrics :=
  let byStatus := match stats.groupedBy with
    | some g =>
        match getKey g "status" with
        | some m => m
        | none => stats.byStatus.getD []
    | none => stats.byStatus.getD []
  let pivotData := match stats.pivot with
    | some p => p.data
    | none => []
  statuses.foldl (fun acc status =>
    let acc1 : SprintReportMetrics :=
      { acc with issues := acc.issues + getKeyD byStatus status 0 }
    match getKey pivotData status with
    | some statusRow =>
        { acc1 with storyPoints := acc1.storyPoints + (valsOf statusRow).sum }
    | none => acc1)
    { issues := 0, storyPoints := 0 }

/-- Triage metrics: a scoped aggregation whose `total` and pivot grand total
form the row. -/
def getTriageMetrics (b : Backend) (options : ReportOptions)
    (issueTypeAllowlist projectAllowlist : Option (List String))
    (sprintId : Nat) (sprintStartDate : Option Int) : Except String SprintReportMetrics :=
  match sprintStartDate with
  | none => pure { issues := 0, storyPoints := 0 }
  | some sd => do
      let startDate := dayStr sd
      let triageStats ← getBacklogStats b
        ("project = " ++ options.projectKey ++ " AND sprint = " ++ toString sprintId
          ++ " AND created >= " ++ q startDate)
        { pivot := some { rowField := .status, columnField := .type, action := some .sum,
                          valueField := some options.storyPointsField } }
        issueTypeAllowlist projectAllowlist
      pure { issues := triageStats.total,
             storyPoints := match triageStats.pivot with
               | some p => p.totals.grand
               | none => 0 }

/-- Story points carried by a candidate issue
(`typeof points === "number"` guard). -/
def issuePoints (issue : Issue) (storyPointsField : String) : Int :=
  match (getKey issue.fields storyPointsField).getD .absent with
  | .num p => p
  | _ => 0

/-- Contribution of one changelog entry during the inflow scan: entries
timestamped strictly after sprint start whose items contain a `Sprint` change
with a new value including the sprint name.  The `break` in the source exits
only the inner items loop, so each matching entry contributes once. -/
def entryMatches (sprintName : String) (sprintStartTime : Int) (entry : ChangeEntry) : Bool :=
  ¬ (entry.created ≤ sprintStartTime)
    ∧ entry.items.any (fun item => item.field = "Sprint" ∧ jsOptIncludes item.toStr sprintName)

/-- Inflow detection: fetch candidates created before sprint start, then scan
each changelog for Sprint-field changes after sprint start. -/
def getInflowMetrics (b : Backend) (options : ReportOptions)
    (issueTypeAllowlist projectAllowlist : Option (List String))
    (sprintId : Nat) (sprintName : String) (sprintStartDate : Option Int) :
    Except String SprintReportMetrics :=
  match sprintStartDate with
  | none => pure { issues := 0, storyPoints := 0 }
  | some startMs => do
      let startDate := dayStr startMs
      let sprintStartTime := startMs
      let candidateIssues ← b.searchIssues
        ("project = " ++ options.projectKey ++ " AND sprint = " ++ toString sprintId
          ++ " AND created < " ++ q startDate)
        0 500 ["key", options.storyPointsField] none
      candidateIssues.issues.foldlM (fun (acc : SprintReportMetrics) issue => do
          let changelog ← b.getIssueChangelog issue.key 100 100
          pure (changelog.values.foldl (fun acc2 entry =>
            if entryMatches sprintName sprintStartTime entry then
              { issues := acc2.issues + 1,
                storyPoints := acc2.storyPoints + issuePoints issue options.storyPointsField }
            else acc2) acc))
        { issues := 0, storyPoints := 0 }

/-- Bug fixed/not-fixed partition over a bug-scoped aggregation. -/
def getBugMetrics (fixedStatuses : List String) (stats : StatsResult) (fixed : Bool) :
    SprintReportMetrics :=
  let pivotData := match stats.pivot with
    | some p => p.data
    | none => []
  pivotData.foldl (fun acc p =>
    let status := p.1
    let typeData := p.2
    if (if fixed then status ∈ fixedStatuses else status ∉ fixedStatuses) then
      { issues := acc.issues +
          (((stats.byTypeAndStatus.bind (fun m => getKey m "Bug")).bind
            (fun m => getKey m status)).getD 0),
        storyPoints := acc.storyPoints + getKeyD typeData "Bug" 0 }
    else acc)
    { issues := 0, storyPoints := 0 }

/-- Sprint report composer (source `getSprintReport`): status groups, triage,
inflow, bug metrics and label tracking, all from sequential sub-aggregations
with no error handling anywhere. -/
def getSprintReport (b : Backend) (options : ReportOptions)
    (issueTypeAllowlist projectAllowlist : Option (List String)) :
    Except String SprintReportResult := do
  let statusGroups := options.statusGroups.getD DEFAULT_STATUS_GROUPS
  let doneStatuses := (getKey statusGroups "Done").getD ["Done"]
  let toTestStatuses := (getKey statusGroups "To Test").getD ["Ready to Test"]
  let fixedStatuses := doneStatuses ++ toTestStatuses
  let currentSprint ← b.getSprint options.sprintId
  let previousSprint : Option Sprint ← fetchPreviousSprint b options
  let allFields ← b.getFields
  let storyPointsFieldName :=
    (allFields.find? (fun f => f.1 = options.storyPointsField)).map (fun f => f.2)
  let currentStats ← getSprintStats b options issueTypeAllowlist projectAllowlist
    options.sprintId
  let previousStats : Option StatsResult ←
    if optNatTruthy options.previousSprintId then do
      let s ← getSprintStats b options issueTypeAllowlist projectAllowlist
        (options.previousSprintId.getD 0)
      pure (some s)
    else pure none
  let statusGroupResults := statusGroups.map (fun g =>
    (g.1, ({ current := aggregateStatusGroup currentStats g.2,
             previous := previousStats.map (fun ps => aggregateStatusGroup ps g.2) }
        : SprintReportRow)))
  let triageRow : Option SprintReportRow ←
    if options.includeTriage then do
      let cur ← getTriageMetrics b options issueTypeAllowlist projectAllowlist
        options.sprintId currentSprint.startDate
      if optNatTruthy options.previousSprintId then
        match previousSprint with
        | some ps => do
            let prev ← getTriageMetrics b options issueTypeAllowlist projectAllowlist
              (options.previousSprintId.getD 0) ps.startDate
            pure (some { current := cur, previous := some prev })
        | none => pure (some { current := cur })
      else pure (some { current := cur })
    else pure none
  let inflowRow : Option SprintReportRow ←
    if options.includeInflow then do
      let cur ← getInflowMetrics b options issueTypeAllowlist projectAllowlist
        options.sprintId currentSprint.name currentSprint.startDate
      if optNatTruthy options.previousSprintId then
        match previousSprint with
        | some ps => do
            let prev ← getInflowMetrics b options issueTypeAllowlist projectAllowlist
              (options.previousSprintId.getD 0) ps.name ps.startDate
            pure (some { current := cur, previous := some prev })
        | none => pure (some { current := cur })
      else pure (some { current := cur })
    else pure none
  let bugBacklogStats ← getBacklogStats b
    ("project = " ++ options.projectKey ++ " AND type = Bug AND sprint IS EMPTY")
    { excludeResolved := true
      pivot := some { rowField := .priority, columnField := .status, action := some .sum,
                      valueField := some options.storyPointsField } }
    issueTypeAllowlist projectAllowlist
  let currentBugStats ← getBacklogStats b
    ("project = " ++ options.projectKey ++ " AND type = Bug")
    { sprint := some options.sprintId
      groupBy := some [.status]
      pivot := some { rowField := .status, columnField := .type, action := some .sum,
                      valueField := some options.storyPointsField } }
    issueTypeAllowlist projectAllowlist
  let previousBugStats : Option StatsResult ←
    if optNatTruthy options.previousSprintId then do
      let s ← getBacklogStats b
        ("project = " ++ options.projectKey ++ " AND type = Bug")
        { sprint := some (options.previousSprintId.getD 0)
          groupBy := some [.status]
          pivot := some { rowField := .status, columnField := .type, action := some .sum,
                          valueField := some options.storyPointsField } }
        issueTypeAllowlist projectAllowlist
      pure (some s)
    else pure none
  let labelResults : List (String × LabelRow) ←
    (options.labelsOfInterest.getD []).foldlM (fun (acc : List (String × LabelRow)) label => do
      let currentLabelStats ← getBacklogStats b
        ("project = " ++ options.projectKey ++ " AND labels = " ++ q label)
        { sprint := some options.sprintId
          groupBy := some [.status]
          pivot := some { rowField := .status, columnField := .type, action := some .sum,
                          valueField := some options.storyPointsField } }
        issueTypeAllowlist projectAllowlist
      let notDone := (valsOf statusGroups).flatten.filter (fun s => s ∉ doneStatuses)
      let currentRow : LabelMetrics :=
        { complete := aggregateStatusGroup currentLabelStats doneStatuses,
          notComplete := aggregateStatusGroup currentLabelStats notDone }
      if optNatTruthy options.previousSprintId then do
        let previousLabelStats ← getBacklogStats b
          ("project = " ++ options.projectKey ++ " AND labels = " ++ q label)
          { sprint := some (options.previousSprintId.getD 0)
            groupBy := some [.status]
            pivot := some { rowField := .status, columnField := .type, action := some .sum,
                            valueField := some options.storyPointsField } }
          issueTypeAllowlist projectAllowlist
        let prevRow : LabelMetrics :=
          { complete := aggregateStatusGroup previousLabelStats doneStatuses,
            notComplete := aggregateStatusGroup previousLabelStats notDone }
        pure (setKey acc label { current := currentRow, previous := some prevRow })
      else
        pure (setKey acc label { current := currentRow }))
      []
  pure
    { currentSprintId := currentSprint.id
      currentSprintName := currentSprint.name
      previousSprint := previousSprint.map (fun s => (s.id, s.name))
      storyPointsField := options.storyPointsField
      storyPointsFieldName := storyPointsFieldName
      statusGroups := statusGroupResults
      triage := triageRow
      inflow := inflowRow
      bugsBacklogTotal :=
        { issues := bugBacklogStats.total,
          storyPoints := match bugBacklogStats.pivot with
            | some p => p.totals.grand
            | none => 0 }
      bugsFixedInSprint :=
        { current := getBugMetrics fixedStatuses currentBugStats true,
          previous := previousBugStats.map (fun s => getBugMetrics fixedStatuses s true) }
      bugsNotFixedInSprint :=
        { current := getBugMetrics fixedStatuses currentBugStats false,
          previous := previousBugStats.map (fun s => getBugMetrics fixedStatuses s false) }
      labels := labelResults }

/-! ## Association-list, dedup and sort lemmas -/

theorem getKey_setKey_self {α : Type} (m : List (String × α)) (k : String) (v : α) :
    getKey (setKey m k v) k = some v := by
  induction m with
  | nil => simp [setKey, getKey]
  | cons p rest ih =>
    by_cases h : p.1 = k
    · simp [setKey, h, getKey]
    · simp [setKey, h, getKey, ih]

theorem getKey_setKey_ne {α : Type} (m : List (String × α)) (k k2 : String) (v : α)
    (h : k ≠ k2) : getKey (setKey m k v) k2 = getKey m k2 := by
  induction m with
  | nil => simp [setKey, getKey, h]
  | cons p rest ih =>
    by_cases hp : p.1 = k
    · simp [setKey, hp, getKey, h]
    · simp [setKey, hp, getKey, ih]

theorem mem_keysOf_setKey {α : Type} (m : List (String × α)) (k a : String) (v : α) :
    a ∈ keysOf (setKey m k v) ↔ a ∈ keysOf m ∨ a = k := by
  induction m with
  | nil => simp [setKey, keysOf]
  | cons p rest ih =>
    obtain ⟨k1, v1⟩ := p
    by_cases hp : k1 = k
    · subst hp
      rw [show setKey ((k1, v1) :: rest) k1 v = (k1, v) :: rest from by simp [setKey]]
      simp only [keysOf, List.map_cons, List.mem_cons]
      tauto
    · simp only [setKey, if_neg hp, keysOf, List.map_cons, List.mem_cons] at ih ⊢
      tauto

theorem nodup_keysOf_setKey {α : Type} (m : List (String × α)) (k : String) (v : α)
    (h : (keysOf m).Nodup) : (keysOf (setKey m k v)).Nodup := by
  induction m with
  | nil => simp [setKey, keysOf]
  | cons p rest ih =>
    by_cases hp : p.1 = k
    · subst hp
      simpa [setKey, keysOf] using h
    · simp only [keysOf, List.map_cons, List.nodup_cons] at h
      have h1 := h.1
      have h2 := h.2
      simp only [setKey, if_neg hp, keysOf, List.map_cons, List.nodup_cons]
      refine ⟨fun hc => ?_, ih h2⟩
      rcases (mem_keysOf_setKey rest k p.1 v).1 hc with hm | hm
      · exact h1 hm
      · exact hp hm

theorem getKeyD_eq {α : Type} (m : List (String × α)) (k : String) (d : α) :
    getKeyD m k d = (getKey m k).getD d := rfl

/-! Set-insertion lemmas -/

theorem mem_setAdd (l : List String) (x a : String) :
    a ∈ setAdd l x ↔ a ∈ l ∨ a = x := by
  by_cases h : x ∈ l
  · simp only [setAdd, if_pos h]
    constructor
    · exact Or.inl
    · rintro (h2 | h2)
      · exact h2
      · exact h2 ▸ h
  · simp [setAdd, if_neg h]

theorem nodup_setAdd (l : List String) (x : String) (h : l.Nodup) :
    (setAdd l x).Nodup := by
  by_cases hx : x ∈ l
  · simpa [setAdd, if_pos hx]
  · simp only [setAdd, if_neg hx]
    simpa [List.nodup_append] using ⟨h, fun hc => hx hc⟩

theorem length_setAdd_le (l : List String) (x : String) :
    (setAdd l x).length ≤ l.length + 1 := by
  by_cases hx : x ∈ l
  · simp [setAdd, if_pos hx]
  · simp [setAdd, if_neg hx]

theorem mem_foldl_setAdd (l acc : List String) (a : String) :
    a ∈ l.foldl setAdd acc ↔ a ∈ acc ∨ a ∈ l := by
  induction l generalizing acc with
  | nil => simp
  | cons x rest ih =>
    simp only [List.foldl_cons, ih, mem_setAdd, List.mem_cons]
    constructor
    · rintro ((h | h) | h)
      · exact Or.inl h
      · exact Or.inr (Or.inl h)
      · exact Or.inr (Or.inr h)
    · rintro (h | h | h)
      · exact Or.inl (Or.inl h)
      · exact Or.inl (Or.inr h)
      · exact Or.inr h

theorem nodup_foldl_setAdd (l acc : List String) (h : acc.Nodup) :
    (l.foldl setAdd acc).Nodup := by
  induction l generalizing acc with
  | nil => simpa
  | cons x rest ih => exact ih (setAdd acc x) (nodup_setAdd acc x h)

theorem mem_jsDedup (l : List String) (a : String) : a ∈ jsDedup l ↔ a ∈ l := by
  simp [jsDedup, mem_foldl_setAdd]

theorem nodup_jsDedup (l : List String) : (jsDedup l).Nodup :=
  nodup_foldl_setAdd l [] List.nodup_nil

/-! Insertion-sort lemmas -/

theorem perm_insertLe (x : String) (l : List String) :
    List.Perm (insertLe x l) (x :: l) := by
  induction l with
  | nil => exact List.Perm.refl _
  | cons y rest ih =>
    by_cases h : strLe x y
    · simp [insertLe, h]
    · simp only [insertLe, if_neg h]
      exact List.Perm.trans (ih.cons y) (List.Perm.swap x y rest)

theorem perm_sortStr (l : List String) : List.Perm (sortStr l) l := by
  induction l with
  | nil => exact List.Perm.refl _
  | cons x rest ih =>
    exact List.Perm.trans (perm_insertLe x (sortStr rest)) (ih.cons x)

theorem mem_sortStr (l : List String) (a : String) : a ∈ sortStr l ↔ a ∈ l :=
  (perm_sortStr l).mem_iff

theorem nodup_sortStr (l : List String) (h : l.Nodup) : (sortStr l).Nodup :=
  (perm_sortStr l).symm.nodup h

/-! Lookup of a tabulated map -/

theorem getKey_map_tab {β : Type} (l : List String) (f : String → β) (a : String)
    (h : a ∈ l) : getKey (l.map (fun x => (x, f x))) a = some (f a) := by
  induction l with
  | nil => cases h
  | cons x rest ih =>
    rcases List.mem_cons.1 h with h1 | h1
    · subst h1
      simp [getKey]
    · by_cases hx : x = a
      · subst hx
        simp [getKey]
      · simpa [getKey, hx] using ih h1

/-! Sum over the keys of a duplicate-free association list -/

theorem sum_keys_getKeyD {α : Type} (m : List (String × α)) (f : α → Nat) (d : α)
    (h : (keysOf m).Nodup) :
    ((keysOf m).map (fun k => f (getKeyD m k d))).sum = (m.map (fun p => f p.2)).sum := by
  induction m with
  | nil => simp [keysOf]
  | cons p rest ih =>
    simp only [keysOf, List.map_cons, List.nodup_cons] at h ⊢
    simp only [List.sum_cons]
    have hhead : getKeyD (p :: rest) p.1 d = p.2 := by
      simp [getKeyD, getKey]
    have hmap : List.map (fun k => f (getKeyD (p :: rest) k d)) (rest.map (fun q => q.1))
        = List.map (fun k => f (getKeyD rest k d)) (rest.map (fun q => q.1)) := by
      apply List.map_congr_left
      intro k hk
      have hne : p.1 ≠ k := fun hc => h.1 (hc ▸ hk)
      simp [getKeyD, getKey, hne]
    have hih := ih h.2
    simp only [keysOf] at hih
    rw [hhead, show (List.map (fun q => q.1) rest) = rest.map (·.1) from rfl] at *
    rw [hmap, hih]

/-- Per-contribution bump of a total map advances the count sum by one. -/
theorem totCountSum_setKey (m : List (String × Tot)) (k : String) (newSum : Int) :
    ((setKey m k { count := (getKeyD m k {}).count + 1, sum := newSum }).map
        (fun p => p.2.count)).sum
      = (m.map (fun p => p.2.count)).sum + 1 := by
  induction m with
  | nil => simp [setKey, getKeyD, getKey]
  | cons p rest ih =>
    obtain ⟨k1, t1⟩ := p
    by_cases hp : k1 = k
    · subst hp
      have hget : getKeyD ((k1, t1) :: rest) k1 ({} : Tot) = t1 := by
        simp [getKeyD, getKey]
      rw [hget]
      rw [show setKey ((k1, t1) :: rest) k1 { count := t1.count + 1, sum := newSum }
          = (k1, ({ count := t1.count + 1, sum := newSum } : Tot)) :: rest from by
        simp [setKey]]
      simp only [List.map_cons, List.sum_cons]
      omega
    · have hget : getKeyD ((k1, t1) :: rest) k ({} : Tot) = getKeyD rest k {} := by
        simp [getKeyD, getKey, hp]
      rw [hget]
      rw [show setKey ((k1, t1) :: rest) k
            ({ count := (getKeyD rest k {}).count + 1, sum := newSum } : Tot)
          = (k1, t1) :: setKey rest k
            ({ count := (getKeyD rest k {}).count + 1, sum := newSum } : Tot) from by
        simp [setKey, hp]]
      simp only [List.map_cons, List.sum_cons]
      rw [ih]
      omega

/-! ## C5: ORDER BY preservation in the query builder -/

theorem matchOrderTail_nil : matchOrderTail [] = false := rfl

theorem matchOrderTail_of_tryMatchAt (rest g2 : List Char) (h : tryMatchAt rest = some g2) :
    matchOrderTail g2 = true := by
  unfold tryMatchAt at h
  simp only at h
  split at h
  · cases h; assumption
  · cases h

theorem extractGo_matchTail (rest : List Char) :
    ∀ pre g1 g2, extractGo pre rest = some (g1, g2) → matchOrderTail g2 = true := by
  induction rest with
  | nil =>
    intro pre g1 g2 h
    simp only [extractGo] at h
    cases htm : tryMatchAt [] with
    | some g => rw [htm] at h; cases h; exact matchOrderTail_of_tryMatchAt [] _ htm
    | none => rw [htm] at h; cases h
  | cons c r ih =>
    intro pre g1 g2 h
    simp only [extractGo] at h
    cases htm : tryMatchAt (c :: r) with
    | some g =>
        rw [htm] at h
        cases h
        exact matchOrderTail_of_tryMatchAt (c :: r) _ htm
    | none =>
        rw [htm] at h
        simp only at h
        by_cases hd : dotChar c = true
        · rw [if_pos hd] at h
          exact ih (pre ++ [c]) g1 g2 h
        · rw [if_neg (by simpa using hd)] at h
          cases h

theorem extractOrderBy_sound (jql g1 g2 : String) (h : extractOrderBy jql = some (g1, g2)) :
    jsTruthy g2 = true := by
  unfold extractOrderBy at h
  cases hg : extractGo [] jql.toList with
  | none => rw [hg] at h; cases h
  | some p =>
      rw [hg] at h
      cases h
      have hm := extractGo_matchTail jql.toList [] p.1 p.2 (by rw [hg])
      cases hp : p.2 with
      | nil => rw [hp] at hm; cases hm
      | cons c cs =>
          simp [jsTruthy, hp]
          intro hc
          have : (String.mk (c :: cs)).data = ("" : String).data := by rw [hc]
          simp at this

/-- C5.  For every base query with a trailing ORDER BY clause (a successful
match of the extraction regex), the composed query consists of the trimmed
base joined with all generated filter fragments by AND, with the held-aside
ORDER BY clause re-appended last. -/
theorem c5_orderBy_preservation (jql g1 g2 : String) (boardFilter : List String)
    (options : StatsOptions) (h : extractOrderBy jql = some (g1, g2)) :
    buildJql jql boardFilter options =
      (let base := jsTrim (jsTrim g1)
       let filters := buildFilters boardFilter options
       (if filters.length > 0 then
          if jsTruthy base then base ++ " AND " ++ String.intercalate " AND " filters
          else String.intercalate " AND " filters
        else base) ++ " " ++ g2) := by
  have hg2 := extractOrderBy_sound jql g1 g2 h
  unfold buildJql
  rw [h]
  simp only [hg2, if_true, if_pos hg2]

/-- Witness for C5: the concrete example of the spec, obtained by applying
the theorem at the concrete query. -/
theorem c5_orderBy_preservation_witness :
    extractOrderBy "project = X ORDER BY created DESC"
        = some ("project = X", "ORDER BY created DESC")
      ∧ buildJql "project = X ORDER BY created DESC" [] { excludeResolved := true }
        = "project = X AND resolution IS EMPTY ORDER BY created DESC" := by
  refine ⟨by decide, ?_⟩
  have h := c5_orderBy_preservation "project = X ORDER BY created DESC"
    "project = X" "ORDER BY created DESC" [] { excludeResolved := true } (by decide)
  rw [h]
  decide

/-! ## C1: inflow detection counts one candidate once per matching entry -/

/-- Backend exhibiting the inflow double count: one candidate issue created
before sprint start, whose changelog holds two entries after sprint start,
each with a Sprint change naming the sprint, plus one earlier entry. -/
def inflowBackend : Backend :=
  { searchIssues := fun _ _ _ _ _ => .ok
      { issues := [{ key := "PROJ-9", fields := [("customfield_10001", .num 3)] }],
        total := some 1, isLast := true }
    getBoard := fun _ => .error "unused"
    getFields := .ok []
    getSprint := fun _ => .ok { id := 7, name := "Sprint 7", startDate := some 1000 }
    getIssueChangelog := fun _ _ _ => .ok
      { values := [{ created := 2000,
                     items := [{ field := "Sprint", toStr := some "Sprint 7" }] },
                   { created := 3000,
                     items := [{ field := "Sprint", toStr := some "Board X, Sprint 7" }] },
                   { created := 500,
                     items := [{ field := "Sprint", toStr := some "Sprint 7" }] }] } }

/-- Report options of the inflow scenario. -/
def inflowReportOptions : ReportOptions :=
  { sprintId := 7, storyPointsField := "customfield_10001", projectKey := "PROJ",
    includeInflow := true }

/-- C1.  The single candidate issue (the backend returns exactly one) with
two matching changelog entries after sprint start is counted twice — issue
count 2 and story points 6 for a 3-point issue — because the `break` in the
source exits only the inner items loop, not the per-entry loop.  The claim
(and the spec scenario) require each candidate to be counted at most once. -/
theorem c1_inflow_double_count :
    getInflowMetrics inflowBackend inflowReportOptions none none 7 "Sprint 7" (some 1000)
        = .ok { issues := 2, storyPoints := 6 }
      ∧ (inflowBackend.searchIssues "" 0 500 [] none).map (fun p => p.issues.length)
        = .ok 1 := by
  constructor
  · rfl
  · rfl

/-! ## C2: the cardinality grand total -/

/-- Backend for the cardinality grand-total counterexample: one issue whose
labels array is empty, so it contributes to no pivot cell. -/
def cardinalityBackend : Backend :=
  { searchIssues := fun _ _ _ _ _ => .ok
      { issues := [{ key := "PROJ-1",
                     fields := [("issuetype", .named "Bug"), ("labels", .strs []),
                                ("status", .named "Open")] }],
        total := some 1, isLast := true }
    getBoard := fun _ => .error "unused"
    getFields := .ok []
    getSprint := fun _ => .error "unused"
    getIssueChangelog := fun _ _ _ => .error "unused" }

/-- Options requesting a cardinality pivot keyed by the multi-valued labels
dimension. -/
def cardinalityOptions : StatsOptions :=
  { groupBy := some [],
    pivot := some { rowField := .labels, columnField := .status,
                    action := some .cardinality, valueField := none } }

/-- Counterexample to C2.  The run analyzes one issue that contributes to no
pivot cell: the pivot has no cells at all (`data = []`), so a fresh
distinct-key union across all cells has size 0, yet the returned grand total
is 1 (the source reads the `analyzed` counter for the cardinality grand
total). -/
theorem c2_cardinality_counterexample :
    (getBacklogStats cardinalityBackend "project = PROJ" cardinalityOptions none none).map
        (fun r => (r.analyzed, r.pivot.map (fun p => (p.data, p.totals.grand))))
      = .ok (1, some ([], 1)) := by
  rfl

/-- Shape of every successful `getBacklogStats` run: the result is the
assembly of some final aggregation state and reported total. -/
theorem getBacklogStats_ok_shape (b : Backend) (jql : String) (options : StatsOptions)
    (pa ta : Option (List String)) (res : StatsResult)
    (h : getBacklogStats b jql options pa ta = .ok res) :
    ∃ st tft rn, res = buildStatsResult options st tft rn := by
  unfold getBacklogStats at h
  cases hc : getBacklogStatsCore b jql options pa ta with
  | error e => rw [hc] at h; cases h
  | ok out =>
      rw [hc] at h
      simp only [Except.map] at h
      cases h
      exact ⟨out.1.1, out.1.2.1, out.2, rfl⟩

/-- C2 (amended).  For every cardinality pivot run, the returned grand total
equals `analyzed`, the number of analyzed issues, rather than a fresh
distinct-key union across the pivot cells. -/
theorem c2_cardinality_grand_is_analyzed (b : Backend) (jql : String)
    (options : StatsOptions) (pa ta : Option (List String)) (res : StatsResult)
    (pc : PivotConfig) (hpc : options.pivot = some pc)
    (hact : pc.action.getD .count = .cardinality)
    (h : getBacklogStats b jql options pa ta = .ok res) :
    ∃ p, res.pivot = some p ∧ p.totals.grand = (res.analyzed : Int) := by
  obtain ⟨st, tft, rn, rfl⟩ := getBacklogStats_ok_shape b jql options pa ta res h
  refine ⟨finalizePivot pc rn st, ?_, ?_⟩
  · simp [buildStatsResult, hpc]
  · simp [finalizePivot, hact, grandValue, buildStatsResult]

/-- Witness for the amended C2, applying the theorem to the concrete
cardinality run. -/
theorem c2_cardinality_grand_is_analyzed_witness :
    ∃ p, (match getBacklogStats cardinalityBackend "project = PROJ" cardinalityOptions
            none none with
          | .ok r => r.pivot
          | .error _ => none) = some p
      ∧ p.totals.grand = 1 := by
  have hrun : getBacklogStats cardinalityBackend "project = PROJ" cardinalityOptions
      none none = .ok (buildStatsResult cardinalityOptions
        { analyzed := 1, groupedBy := [] } 1 none) := by rfl
  obtain ⟨p, hp, hg⟩ := c2_cardinality_grand_is_analyzed cardinalityBackend "project = PROJ"
    cardinalityOptions none none _ _ rfl rfl hrun
  refine ⟨p, ?_, ?_⟩
  · rw [hrun]
    exact hp
  · rw [hg]
    rfl

/-! ## C6: multi-valued dynamic groupBy increments one bucket per member -/

/-- Minimal backend returning one fixed page and nothing else. -/
def singlePageBackend (issues : List Issue) : Backend :=
  { searchIssues := fun _ _ _ _ _ => .ok
      { issues := issues, total := some issues.length, isLast := true }
    getBoard := fun _ => .error "unused"
    getFields := .ok []
    getSprint := fun _ => .error "unused"
    getIssueChangelog := fun _ _ _ => .error "unused" }

theorem getKeyD_bump_self (m : List (String × Nat)) (x : String) :
    getKeyD (bump m x) x 0 = getKeyD m x 0 + 1 := by
  simp [bump, getKeyD, getKey_setKey_self]

theorem getKeyD_bump_ne (m : List (String × Nat)) (x v : String) (h : x ≠ v) :
    getKeyD (bump m x) v 0 = getKeyD m v 0 := by
  simp [bump, getKeyD, getKey_setKey_ne m x v _ h]

/-- Folding `bump` over a member list adds the member multiplicity to every
bucket. -/
theorem getKeyD_bump_fold (l : List String) (m : List (String × Nat)) (v : String) :
    getKeyD (l.foldl bump m) v 0 = getKeyD m v 0 + l.count v := by
  induction l generalizing m with
  | nil => simp
  | cons x r ih =>
    simp only [List.foldl_cons]
    rw [ih]
    by_cases hxv : x = v
    · subst hxv
      rw [getKeyD_bump_self]
      simp [List.count_cons]
      omega
    · rw [getKeyD_bump_ne m x v hxv]
      have : (x :: r).count v = r.count v := by
        simp [List.count_cons, hxv]
      rw [this]

/-- C6.  Aggregating a single issue whose labels field holds the member list
`l` with `groupBy = [labels]` produces a labels bucket map in which every
value is counted once per occurrence in `l`: an issue with labels `a` and
`b` increments both buckets by one each, rather than the issue once. -/
theorem c6_groupby_multivalue_fanout (l : List String) (tn : String) :
    ∃ m,
      (getBacklogStats
          (singlePageBackend
            [{ key := "PROJ-1", fields := [("issuetype", .named tn), ("labels", .strs l)] }])
          "project = PROJ" { groupBy := some [.labels] } none none).map
          (fun r => r.groupedBy)
        = .ok (some [("labels", m)])
      ∧ ∀ v, getKeyD m v 0 = l.count v := by
  refine ⟨l.foldl bump [], rfl, ?_⟩
  intro v
  rw [getKeyD_bump_fold l [] v]
  simp [getKeyD, getKey]

/-! ## Shape lemmas for the aggregation passes -/

/-- Non-pivot projection of the aggregation state. -/
def nonPivotView (st : AggSt) :=
  (st.analyzed, st.byStatus, st.byType, st.byPriority, st.byAssignee,
   st.byTypeAndStatus, st.groupedBy)

/-- Pivot projection of the aggregation state. -/
def pivotView (st : AggSt) :=
  (st.pivotData, st.pivotRowTotals, st.pivotColTotals, st.pivotGrand)

theorem nonPivotView_pivotStep (st : AggSt) (row col : String) (nv : Int) (k : String) :
    nonPivotView (pivotStep st row col nv k) = nonPivotView st := rfl

theorem nonPivotView_colFold (st : AggSt) (row : String) (cols : List String) (nv : Int)
    (k : String) :
    nonPivotView (cols.foldl (fun s c => pivotStep s row c nv k) st) = nonPivotView st := by
  induction cols generalizing st with
  | nil => rfl
  | cons c cs ih =>
    simp only [List.foldl_cons]
    rw [ih (pivotStep st row c nv k), nonPivotView_pivotStep]

theorem nonPivotView_pivotCross (st : AggSt) (ra ca : List String) (nv : Int) (k : String) :
    nonPivotView (pivotCross st ra ca nv k) = nonPivotView st := by
  unfold pivotCross
  induction ra generalizing st with
  | nil => rfl
  | cons r rs ih =>
    simp only [List.foldl_cons]
    rw [ih, nonPivotView_colFold]

theorem analyzed_pivotCross (st : AggSt) (ra ca : List String) (nv : Int) (k : String) :
    (pivotCross st ra ca nv k).analyzed = st.analyzed := by
  have h := nonPivotView_pivotCross st ra ca nv k
  exact congrArg (fun t => t.1) h

theorem applyDefaults_shape (issue : Issue) (tn : String) (st st2 : AggSt)
    (h : applyDefaults issue tn st = .ok st2) :
    st2.analyzed = st.analyzed ∧ st2.groupedBy = st.groupedBy
      ∧ pivotView st2 = pivotView st := by
  unfold applyDefaults at h
  cases hs : reqName (fieldOf issue "status") with
  | error e => rw [hs] at h; cases h
  | ok sn =>
      rw [hs] at h
      simp only [bind, Except.bind, pure, Except.pure] at h
      cases h
      exact ⟨rfl, rfl, rfl⟩

theorem groupByStep_shape (issue : Issue) (f : StatsField) (st st2 : AggSt)
    (h : groupByStep issue st f = .ok st2) :
    st2.analyzed = st.analyzed ∧ st2.byStatus = st.byStatus ∧ st2.byType = st.byType
      ∧ st2.byPriority = st.byPriority ∧ st2.byAssignee = st.byAssignee
      ∧ st2.byTypeAndStatus = st.byTypeAndStatus ∧ pivotView st2 = pivotView st := by
  unfold groupByStep at h
  cases hv : getFieldValue issue f with
  | error e => rw [hv] at h; cases h
  | ok vals =>
      rw [hv] at h
      simp only [bind, Except.bind, pure, Except.pure] at h
      cases h
      exact ⟨rfl, rfl, rfl, rfl, rfl, rfl, rfl⟩

theorem groupFold_shape (issue : Issue) (flds : List StatsField) (st st2 : AggSt)
    (h : flds.foldlM (groupByStep issue) st = .ok st2) :
    st2.analyzed = st.analyzed ∧ pivotView st2 = pivotView st := by
  induction flds generalizing st with
  | nil =>
    simp only [List.foldlM_nil, pure, Except.pure] at h
    cases h
    exact ⟨rfl, rfl⟩
  | cons f fs ih =>
    rw [List.foldlM_cons] at h
    cases hg : groupByStep issue st f with
    | error e => rw [hg] at h; simp [bind, Except.bind] at h
    | ok stM =>
        rw [hg] at h
        simp only [bind, Except.bind] at h
        obtain ⟨ha, hp⟩ := ih stM h
        obtain ⟨ga, _, _, _, _, _, gp⟩ := groupByStep_shape issue f st stM hg
        exact ⟨ha.trans ga, hp.trans gp⟩

/-- Characterization of the groupBy-plus-pivot tail of one issue. -/
theorem processTail_shape (options : StatsOptions) (issue : Issue) (stB st2 : AggSt)
    (h : processTail options issue stB = .ok st2) :
    ∃ stC, stC.analyzed = stB.analyzed ∧ pivotView stC = pivotView stB ∧
      ((options.pivot = none ∧ st2 = stC) ∨
       (∃ pc ro co, options.pivot = some pc
          ∧ getFieldValue issue pc.rowField = .ok ro
          ∧ getFieldValue issue pc.columnField = .ok co
          ∧ st2 = pivotCross stC ro.toList co.toList (resolveNumericValue pc issue)
              issue.key)) := by
  unfold processTail at h
  simp only [bind, Except.bind] at h
  cases hf : (options.groupBy.getD []).foldlM (groupByStep issue) stB with
  | error e => rw [hf] at h; cases h
  | ok stC =>
    rw [hf] at h
    obtain ⟨hCa, hCp⟩ := groupFold_shape issue _ stB stC hf
    refine ⟨stC, hCa, hCp, ?_⟩
    cases hpv : options.pivot with
    | none =>
      rw [hpv] at h
      simp only [pure, Except.pure] at h
      cases h
      exact Or.inl ⟨rfl, rfl⟩
    | some pc =>
      rw [hpv] at h
      unfold applyPivot at h
      simp only [bind, Except.bind] at h
      cases hro : getFieldValue issue pc.rowField with
      | error e => rw [hro] at h; cases h
      | ok ro =>
        rw [hro] at h
        cases hco : getFieldValue issue pc.columnField with
        | error e => rw [hco] at h; cases h
        | ok co =>
          rw [hco] at h
          simp only [pure, Except.pure] at h
          cases h
          exact Or.inr ⟨pc, ro, co, rfl, hro, hco, rfl⟩

/-- Characterization of one successful issue-processing step: either the
issue is filtered out and the state is unchanged, or the analyzed counter
advances by one, the non-pivot passes leave the pivot accumulators alone,
and the optional pivot pass is a cross-product accumulation of the extracted
row and column values. -/
theorem processIssue_ok_shape (options : StatsOptions) (pa ta : Option (List String))
    (st st2 : AggSt) (issue : Issue)
    (h : processIssue options pa ta st issue = .ok st2) :
    st2 = st ∨
    ∃ stMid, stMid.analyzed = st.analyzed + 1 ∧ pivotView stMid = pivotView st ∧
      ((options.pivot = none ∧ st2 = stMid) ∨
       (∃ pc ro co, options.pivot = some pc
          ∧ getFieldValue issue pc.rowField = .ok ro
          ∧ getFieldValue issue pc.columnField = .ok co
          ∧ st2 = pivotCross stMid ro.toList co.toList (resolveNumericValue pc issue)
              issue.key)) := by
  unfold processIssue at h
  cases hk : getProjectFromIssueKey issue.key with
  | error e => rw [hk] at h; cases h
  | ok pk =>
    simp only [hk, bind, Except.bind] at h
    by_cases hpa : isProjectAllowed pk pa = true
    · rw [if_neg (by simp [hpa])] at h
      cases htn : reqName (fieldOf issue "issuetype") with
      | error e => rw [htn] at h; cases h
      | ok tn =>
        simp only [htn] at h
        by_cases hta : isIssueTypeAllowed tn ta = true
        · rw [if_neg (by simp [hta])] at h
          by_cases hgb : options.groupBy.isNone = true
          · rw [if_pos hgb] at h
            cases hd : applyDefaults issue tn { st with analyzed := st.analyzed + 1 } with
            | error e => rw [hd] at h; cases h
            | ok stB =>
              rw [hd] at h
              obtain ⟨a, _, p⟩ :=
                applyDefaults_shape issue tn { st with analyzed := st.analyzed + 1 } stB hd
              obtain ⟨stC, hCa, hCp, hrest⟩ := processTail_shape options issue stB st2 h
              exact Or.inr ⟨stC, hCa.trans a, hCp.trans p, hrest⟩
          · rw [if_neg hgb] at h
            simp only [pure, Except.pure] at h
            obtain ⟨stC, hCa, hCp, hrest⟩ :=
              processTail_shape options issue { st with analyzed := st.analyzed + 1 } st2 h
            exact Or.inr ⟨stC, hCa, hCp, hrest⟩
        · rw [if_pos (by simp [hta])] at h
          simp only [pure, Except.pure] at h
          cases h
          exact Or.inl rfl
    · rw [if_pos (by simp [hpa])] at h
      simp only [pure, Except.pure] at h
      cases h
      exact Or.inl rfl

/-! ## C4: pagination bounds -/

theorem except_bind_ok {α β : Type} (x : Except String α) (f : α → Except String β) (b : β)
    (h : (x >>= f) = .ok b) : ∃ a, x = .ok a ∧ f a = .ok b := by
  cases x with
  | error e => simp [bind, Except.bind] at h
  | ok a => exact ⟨a, rfl, by simpa [bind, Except.bind] using h⟩

theorem processIssue_analyzed_le (options : StatsOptions) (pa ta : Option (List String))
    (st st2 : AggSt) (issue : Issue)
    (h : processIssue options pa ta st issue = .ok st2) :
    st2.analyzed ≤ st.analyzed + 1 := by
  rcases processIssue_ok_shape options pa ta st st2 issue h with h1 | ⟨stMid, ha, _, hrest⟩
  · subst h1; omega
  · rcases hrest with ⟨_, h2⟩ | ⟨pc, ro, co, _, _, _, h2⟩
    · subst h2; omega
    · subst h2
      rw [analyzed_pivotCross]
      omega

theorem processIssues_analyzed_le (options : StatsOptions) (pa ta : Option (List String))
    (issues : List Issue) : ∀ st st2 : AggSt,
    processIssues options pa ta st issues = .ok st2 →
    st2.analyzed ≤ st.analyzed + issues.length := by
  induction issues with
  | nil =>
    intro st st2 h
    simp only [processIssues] at h
    cases h
    omega
  | cons i rest ih =>
    intro st st2 h
    simp only [processIssues] at h
    cases hp : processIssue options pa ta st i with
    | error e => rw [hp] at h; cases h
    | ok stM =>
      rw [hp] at h
      have h1 := processIssue_analyzed_le options pa ta st stM i hp
      have h2 := ih stM st2 h
      simp only [List.length_cons]
      omega

theorem fetchLoop_calls_le (search : Option String → Except String SearchPage)
    (options : StatsOptions) (pa ta : Option (List String)) :
    ∀ (fuel : Nat) (tok : Option String) (st : AggSt) (tot calls : Nat) out,
    fetchLoop search options pa ta fuel tok st tot calls = .ok out →
    out.2.2 ≤ calls + fuel := by
  intro fuel
  induction fuel with
  | zero =>
    intro tok st tot calls out h
    simp only [fetchLoop] at h
    cases h
    show calls ≤ calls + 0
    omega
  | succ n ih =>
    intro tok st tot calls out h
    simp only [fetchLoop] at h
    cases hs : search tok with
    | error e => simp only [hs] at h; cases h
    | ok resp =>
      simp only [hs] at h
      split at h
      · cases h
        show calls + 1 ≤ calls + (n + 1)
        omega
      · cases hp : processIssues options pa ta st resp.issues with
        | error e => simp only [hp] at h; cases h
        | ok st2 =>
          simp only [hp] at h
          split at h
          · cases h
            show calls + 1 ≤ calls + (n + 1)
            omega
          · have := ih _ _ _ _ _ h
            omega

theorem fetchLoop_analyzed_le (search : Option String → Except String SearchPage)
    (options : StatsOptions) (pa ta : Option (List String))
    (hpages : ∀ tok page, search tok = .ok page → page.issues.length ≤ 100) :
    ∀ (fuel : Nat) (tok : Option String) (st : AggSt) (tot calls : Nat) out,
    fetchLoop search options pa ta fuel tok st tot calls = .ok out →
    out.1.analyzed ≤ st.analyzed + fuel * 100 := by
  intro fuel
  induction fuel with
  | zero =>
    intro tok st tot calls out h
    simp only [fetchLoop] at h
    cases h
    show st.analyzed ≤ st.analyzed + 0 * 100
    omega
  | succ n ih =>
    intro tok st tot calls out h
    simp only [fetchLoop] at h
    cases hs : search tok with
    | error e => simp only [hs] at h; cases h
    | ok resp =>
      simp only [hs] at h
      split at h
      · cases h
        show st.analyzed ≤ st.analyzed + (n + 1) * 100
        omega
      · cases hp : processIssues options pa ta st resp.issues with
        | error e => simp only [hp] at h; cases h
        | ok st2 =>
          simp only [hp] at h
          have hlen := hpages tok resp hs
          have hst2 := processIssues_analyzed_le options pa ta resp.issues st st2 hp
          split at h
          · cases h
            show st2.analyzed ≤ st.analyzed + (n + 1) * 100
            have hmul : (n + 1) * 100 = n * 100 + 100 := by ring
            omega
          · have := ih _ _ _ _ _ h
            have hmul : (n + 1) * 100 = n * 100 + 100 := by ring
            omega

theorem fetchLoop_total_const (search : Option String → Except String SearchPage)
    (options : StatsOptions) (pa ta : Option (List String))
    (hnt : ∀ tok page, search tok = .ok page → page.total = none) :
    ∀ (fuel : Nat) (tok : Option String) (st : AggSt) (tot calls : Nat) out,
    fetchLoop search options pa ta fuel tok st tot calls = .ok out →
    out.2.1 = tot := by
  intro fuel
  induction fuel with
  | zero =>
    intro tok st tot calls out h
    simp only [fetchLoop] at h
    cases h
    rfl
  | succ n ih =>
    intro tok st tot calls out h
    simp only [fetchLoop] at h
    cases hs : search tok with
    | error e => simp only [hs] at h; cases h
    | ok resp =>
      simp only [hs] at h
      have htot : (match resp.total with | some t => t | none => tot) = tot := by
        rw [hnt tok resp hs]
      rw [htot] at h
      split at h
      · cases h; rfl
      · cases hp : processIssues options pa ta st resp.issues with
        | error e => simp only [hp] at h; cases h
        | ok st2 =>
          simp only [hp] at h
          split at h
          · cases h; rfl
          · exact ih resp.nextPageToken st2 tot (calls + 1) out h

/-- Full decomposition of a successful `getBacklogStats` run: some board
filter, loop outcome and resolved field name such that the result is their
assembly. -/
theorem getBacklogStats_ok_full (b : Backend) (jql : String) (options : StatsOptions)
    (pa ta : Option (List String)) (res : StatsResult)
    (h : getBacklogStats b jql options pa ta = .ok res) :
    ∃ bf out rn,
      fetchLoop (fun tok => b.searchIssues (buildJql jql bf options) 0 100
          (computeSearchFields options) tok)
        options pa ta 40 none (initAggSt options) 0 0 = .ok out
      ∧ res = buildStatsResult options out.1 out.2.1 rn := by
  unfold getBacklogStats at h
  cases hc : getBacklogStatsCore b jql options pa ta with
  | error e => rw [hc] at h; cases h
  | ok out =>
    rw [hc] at h
    simp only [Except.map] at h
    cases h
    unfold getBacklogStatsCore at hc
    obtain ⟨bf, hbf, hc⟩ := except_bind_ok _ _ _ hc
    obtain ⟨rn, hrn, hc⟩ := except_bind_ok _ _ _ hc
    obtain ⟨lo, hlo, hc⟩ := except_bind_ok _ _ _ hc
    simp only [pure, Except.pure] at hc
    cases hc
    exact ⟨bf, lo, rn, hlo, rfl⟩

/-- Backend that reports a total of 1 while delivering two issues in one
page: the counterexample input of C4. -/
def overdeliveringBackend : Backend :=
  { searchIssues := fun _ _ _ _ _ => .ok
      { issues := [{ key := "P-1", fields := [("issuetype", .named "Bug"),
                     ("status", .named "Open")] },
                   { key := "P-2", fields := [("issuetype", .named "Bug"),
                     ("status", .named "Open")] }],
        total := some 1, isLast := true }
    getBoard := fun _ => .error "unused"
    getFields := .ok []
    getSprint := fun _ => .error "unused"
    getIssueChangelog := fun _ _ _ => .error "unused" }

/-- Counterexample to C4 as stated: with a backend that misreports its total,
the returned result has `analyzed = 2` but `total = 1`, so
`analyzed ≤ min(total, 4000)` fails even though the loop stayed within the
page ceiling. -/
theorem c4_counterexample :
    (getBacklogStats overdeliveringBackend "project = P" {} none none).map
        (fun r => (r.total, r.analyzed)) = .ok (1, 2)
      ∧ ¬ (2 ≤ min 1 4000) := by
  exact ⟨rfl, by decide⟩

/-- C4 (amended).  The pagination loop makes at most 40 search calls for
every backend; if every returned page holds at most the requested 100
issues, `analyzed ≤ 4000`; and `analyzed ≤ min(total, 4000)` additionally
holds when the backend reports no total (the result total then falls back to
`analyzed`), while a misreported positive total can break it. -/
theorem c4_pagination_bounds :
    (∀ search options pa ta fuel tok st tot calls out,
        fetchLoop search options pa ta fuel tok st tot calls = .ok out →
        out.2.2 ≤ calls + fuel)
    ∧ (∀ (b : Backend) (jql : String) (options : StatsOptions) pa ta res,
        (∀ jq n m f t p, b.searchIssues jq n m f t = .ok p → p.issues.length ≤ 100) →
        getBacklogStats b jql options pa ta = .ok res → res.analyzed ≤ 4000)
    ∧ (∀ (b : Backend) (jql : String) (options : StatsOptions) pa ta res,
        (∀ jq n m f t p, b.searchIssues jq n m f t = .ok p →
          p.issues.length ≤ 100 ∧ p.total = none) →
        getBacklogStats b jql options pa ta = .ok res →
        res.analyzed ≤ min res.total 4000) := by
  refine ⟨?_, ?_, ?_⟩
  · intro search options pa ta fuel tok st tot calls out h
    exact fetchLoop_calls_le search options pa ta fuel tok st tot calls out h
  · intro b jql options pa ta res hp h
    obtain ⟨bf, out, rn, hloop, rfl⟩ := getBacklogStats_ok_full b jql options pa ta res h
    have := fetchLoop_analyzed_le _ options pa ta
      (fun tok page hpg => hp _ _ _ _ _ _ hpg) 40 none (initAggSt options) 0 0 out hloop
    simpa [buildStatsResult, initAggSt] using this
  · intro b jql options pa ta res hp h
    obtain ⟨bf, out, rn, hloop, rfl⟩ := getBacklogStats_ok_full b jql options pa ta res h
    have h1 := fetchLoop_analyzed_le _ options pa ta
      (fun tok page hpg => (hp _ _ _ _ _ _ hpg).1) 40 none (initAggSt options) 0 0 out hloop
    have h2 := fetchLoop_total_const _ options pa ta
      (fun tok page hpg => (hp _ _ _ _ _ _ hpg).2) 40 none (initAggSt options) 0 0 out hloop
    have ha : out.1.analyzed ≤ 4000 := by
      simpa [initAggSt] using h1
    simp only [buildStatsResult, h2]
    simp only [ne_eq, not_true_eq_false, if_false, Nat.le_refl, min_def]
    split
    · exact le_of_eq rfl |>.trans (le_refl _)
    · omega

/-- Backend for the amended-C4 witness: one page, one issue, no reported
total. -/
def honestBackend : Backend :=
  { searchIssues := fun _ _ _ _ _ => .ok
      { issues := [{ key := "P-1", fields := [("issuetype", .named "Bug"),
                     ("status", .named "Open")] }],
        total := none, isLast := true }
    getBoard := fun _ => .error "unused"
    getFields := .ok []
    getSprint := fun _ => .error "unused"
    getIssueChangelog := fun _ _ _ => .error "unused" }

/-- Witness for the amended C4, applying its third conjunct to a concrete
honest backend. -/
theorem c4_pagination_bounds_witness :
    ∃ res, getBacklogStats honestBackend "project = P" {} none none = .ok res
      ∧ res.analyzed ≤ min res.total 4000 := by
  refine ⟨_, rfl, ?_⟩
  exact c4_pagination_bounds.2.2 honestBackend "project = P" {} none none _
    (fun jq n m f t p hp => by cases hp; exact ⟨by decide, rfl⟩) rfl

/-! ## C10: rectangular zero-filled pivot tables -/

/-- Read of `pivot.data[r]?.[c]` on a returned pivot table. -/
def dataEntry (p : PivotOut) (r c : String) : Option Int :=
  (getKey p.data r).bind (fun m => getKey m c)

/-- Nested lookup of a doubly tabulated map is defined on its index sets. -/
theorem dataEntry_tab (rows cols : List String) (f : String → String → Int) (r c : String)
    (hr : r ∈ rows) (hc : c ∈ cols) :
    (getKey (rows.map (fun row => (row, cols.map (fun col => (col, f row col))))) r).bind
      (fun m => getKey m c) = some (f r c) := by
  rw [getKey_map_tab rows _ r hr]
  show getKey (cols.map (fun col => (col, f r col))) c = some (f r c)
  exact getKey_map_tab cols _ c hc

/-- C10.  Every returned pivot table is the finalization of the accumulated
state (first conjunct), and a finalized table is rectangular with zero fill:
for every row of the rows list and column of the columns list the data entry
is defined, and it is 0 whenever no analyzed issue contributed to that cell
(the cell is absent from the accumulator). -/
theorem c10_pivot_rectangular_zero_fill :
    (∀ (b : Backend) (jql : String) (options : StatsOptions) pa ta res pc,
        getBacklogStats b jql options pa ta = .ok res → options.pivot = some pc →
        ∃ st rn, res.pivot = some (finalizePivot pc rn st))
    ∧ (∀ (pc : PivotConfig) (rn : Option String) (st : AggSt) (r c : String),
        r ∈ (finalizePivot pc rn st).rows → c ∈ (finalizePivot pc rn st).columns →
        ∃ v, dataEntry (finalizePivot pc rn st) r c = some v
          ∧ (getCell st.pivotData r c = none → v = 0)) := by
  constructor
  · intro b jql options pa ta res pc h hpc
    obtain ⟨bf, out, rn, hloop, rfl⟩ := getBacklogStats_ok_full b jql options pa ta res h
    exact ⟨out.1, rn, by simp [buildStatsResult, hpc]⟩
  · intro pc rn st r c hr hc
    refine ⟨cellValue (pc.action.getD .count) (getCell st.pivotData r c), ?_, ?_⟩
    · exact dataEntry_tab (finalizePivot pc rn st).rows (finalizePivot pc rn st).columns
        (fun row col => cellValue (pc.action.getD .count) (getCell st.pivotData row col))
        r c hr hc
    · intro hnone
      rw [hnone]
      rfl

/-- Witness for C10: the finalized table of a one-cell accumulator, via the
second conjunct of the theorem. -/
theorem c10_pivot_rectangular_zero_fill_witness :
    ∃ v, dataEntry
        (finalizePivot { rowField := .status, columnField := .type, action := some .count,
                         valueField := none } none
          (pivotCross {} ["Open"] ["Bug"] 1 "P-1")) "Open" "Bug" = some v
      ∧ (getCell (pivotCross ({} : AggSt) ["Open"] ["Bug"] 1 "P-1").pivotData "Open" "Bug"
          = none → v = 0) := by
  exact c10_pivot_rectangular_zero_fill.2
    { rowField := .status, columnField := .type, action := some .count, valueField := none }
    none (pivotCross {} ["Open"] ["Bug"] 1 "P-1") "Open" "Bug" (by decide) (by decide)

/-! ## C7: per-cell distinct-key size never exceeds the running count -/

theorem mem_setKey_elim {α : Type} (m : List (String × α)) (k : String) (v : α) :
    ∀ p ∈ setKey m k v, p = (k, v) ∨ p ∈ m := by
  induction m with
  | nil =>
    intro p hp
    simp [setKey] at hp
    exact Or.inl hp
  | cons q rest ih =>
    intro p hp
    by_cases hq : q.1 = k
    · obtain ⟨k1, v1⟩ := q
      simp only at hq
      subst hq
      rw [show setKey ((k1, v1) :: rest) k1 v = (k1, v) :: rest from by simp [setKey]] at hp
      rcases List.mem_cons.1 hp with h | h
      · exact Or.inl h
      · exact Or.inr (List.mem_cons_of_mem _ h)
    · obtain ⟨k1, v1⟩ := q
      simp only at hq
      rw [show setKey ((k1, v1) :: rest) k v = (k1, v1) :: setKey rest k v from by
        simp [setKey, hq]] at hp
      rcases List.mem_cons.1 hp with h | h
      · exact Or.inr (h ▸ List.mem_cons_self _ _)
      · rcases ih p h with h2 | h2
        · exact Or.inl h2
        · exact Or.inr (List.mem_cons_of_mem _ h2)

theorem getKey_mem {α : Type} (m : List (String × α)) (k : String) (v : α)
    (h : getKey m k = some v) : (k, v) ∈ m := by
  induction m with
  | nil => cases h
  | cons q rest ih =>
    obtain ⟨k1, v1⟩ := q
    by_cases hq : k1 = k
    · subst hq
      rw [show getKey ((k1, v1) :: rest) k1 = some v1 from by simp [getKey]] at h
      cases h
      exact List.mem_cons_self _ _
    · rw [show getKey ((k1, v1) :: rest) k = getKey rest k from by simp [getKey, hq]] at h
      exact List.mem_cons_of_mem _ (ih h)

theorem getKeyD_cases {α : Type} (m : List (String × α)) (k : String) (d : α) :
    (getKeyD m k d = d ∧ getKey m k = none) ∨
    (∃ v, getKey m k = some v ∧ getKeyD m k d = v) := by
  unfold getKeyD
  cases h : getKey m k with
  | none => exact Or.inl ⟨rfl, rfl⟩
  | some v => exact Or.inr ⟨v, rfl, rfl⟩

/-- Cell invariant: the distinct-key set of a cell never outgrows its count. -/
def cellsOk (st : AggSt) : Prop :=
  ∀ p ∈ st.pivotData, ∀ q ∈ p.2, q.2.values.length ≤ q.2.count

theorem cellsOk_pivotStep (st : AggSt) (row col : String) (nv : Int) (key : String)
    (h : cellsOk st) : cellsOk (pivotStep st row col nv key) := by
  have hrowMapOk : ∀ q2 ∈ getKeyD st.pivotData row [], q2.2.values.length ≤ q2.2.count := by
    intro q2 hq2
    rcases getKeyD_cases st.pivotData row [] with ⟨hd, _⟩ | ⟨m, hgk, hd⟩
    · rw [hd] at hq2; cases hq2
    · rw [hd] at hq2
      exact h (row, m) (getKey_mem _ _ _ hgk) q2 hq2
  have hcellOk : (getKeyD (getKeyD st.pivotData row []) col ({} : Cell)).values.length
      ≤ (getKeyD (getKeyD st.pivotData row []) col ({} : Cell)).count := by
    rcases getKeyD_cases (getKeyD st.pivotData row []) col ({} : Cell) with
      ⟨hd, _⟩ | ⟨c0, hgc, hd⟩
    · rw [hd]
      exact Nat.le_refl 0
    · rw [hd]
      exact hrowMapOk (col, c0) (getKey_mem _ _ _ hgc)
  intro p hp q hq
  simp only [pivotStep] at hp
  rcases mem_setKey_elim _ _ _ p hp with hpn | hpo
  · subst hpn
    simp only at hq
    rcases mem_setKey_elim _ _ _ q hq with hqn | hqo
    · subst hqn
      simp only
      have hsa := length_setAdd_le
        (getKeyD (getKeyD st.pivotData row []) col ({} : Cell)).values key
      omega
    · exact hrowMapOk q hqo
  · exact h p hpo q hq

theorem cellsOk_pivotCross (st : AggSt) (ra ca : List String) (nv : Int) (key : String)
    (h : cellsOk st) : cellsOk (pivotCross st ra ca nv key) := by
  unfold pivotCross
  induction ra generalizing st with
  | nil => exact h
  | cons r rs ih =>
    simp only [List.foldl_cons]
    apply ih
    clear ih
    induction ca generalizing st with
    | nil => exact h
    | cons c cs ihc =>
      simp only [List.foldl_cons]
      exact ihc (pivotStep st r c nv key) (cellsOk_pivotStep st r c nv key h)

theorem cellsOk_of_pivotView_eq (st st2 : AggSt) (h : pivotView st2 = pivotView st)
    (hok : cellsOk st) : cellsOk st2 := by
  have : st2.pivotData = st.pivotData := congrArg (fun t => t.1) h
  unfold cellsOk
  rw [this]
  exact hok

theorem cellsOk_processIssue (options : StatsOptions) (pa ta : Option (List String))
    (st st2 : AggSt) (issue : Issue)
    (h : processIssue options pa ta st issue = .ok st2) (hok : cellsOk st) :
    cellsOk st2 := by
  rcases processIssue_ok_shape options pa ta st st2 issue h with h1 | ⟨stMid, _, hpv, hrest⟩
  · subst h1; exact hok
  · have hMid : cellsOk stMid := cellsOk_of_pivotView_eq st stMid hpv hok
    rcases hrest with ⟨_, h2⟩ | ⟨pc, ro, co, _, _, _, h2⟩
    · subst h2; exact hMid
    · subst h2
      exact cellsOk_pivotCross stMid _ _ _ _ hMid

theorem cellsOk_processIssues (options : StatsOptions) (pa ta : Option (List String))
    (issues : List Issue) : ∀ st st2 : AggSt,
    processIssues options pa ta st issues = .ok st2 → cellsOk st → cellsOk st2 := by
  induction issues with
  | nil =>
    intro st st2 h hok
    simp only [processIssues] at h
    cases h
    exact hok
  | cons i rest ih =>
    intro st st2 h hok
    simp only [processIssues] at h
    cases hp : processIssue options pa ta st i with
    | error e => rw [hp] at h; cases h
    | ok stM =>
      rw [hp] at h
      exact ih stM st2 h (cellsOk_processIssue options pa ta st stM i hp hok)

theorem cellsOk_fetchLoop (search : Option String → Except String SearchPage)
    (options : StatsOptions) (pa ta : Option (List String)) :
    ∀ (fuel : Nat) (tok : Option String) (st : AggSt) (tot calls : Nat) out,
    fetchLoop search options pa ta fuel tok st tot calls = .ok out → cellsOk st →
    cellsOk out.1 := by
  intro fuel
  induction fuel with
  | zero =>
    intro tok st tot calls out h hok
    simp only [fetchLoop] at h
    cases h
    exact hok
  | succ n ih =>
    intro tok st tot calls out h hok
    simp only [fetchLoop] at h
    cases hs : search tok with
    | error e => simp only [hs] at h; cases h
    | ok resp =>
      simp only [hs] at h
      split at h
      · cases h; exact hok
      · cases hp : processIssues options pa ta st resp.issues with
        | error e => simp only [hp] at h; cases h
        | ok st2 =>
          simp only [hp] at h
          have hok2 := cellsOk_processIssues options pa ta resp.issues st st2 hp hok
          split at h
          · cases h; exact hok2
          · exact ih _ _ _ _ _ h hok2

/-- C7.  In every aggregation state accumulated by the pagination loop of
`getBacklogStats` (started from the fresh initial state, exactly as
`getBacklogStatsCore` starts it), every pivot cell satisfies
`values.size ≤ count`: the distinct-issue-key cardinality of a cell never
exceeds its running count. -/
theorem c7_cardinality_le_count (search : Option String → Except String SearchPage)
    (options : StatsOptions) (pa ta : Option (List String)) (out : AggSt × Nat × Nat)
    (h : fetchLoop search options pa ta 40 none (initAggSt options) 0 0 = .ok out) :
    ∀ p ∈ out.1.pivotData, ∀ q ∈ p.2, q.2.values.length ≤ q.2.count := by
  refine cellsOk_fetchLoop search options pa ta 40 none (initAggSt options) 0 0 out h ?_
  intro p hp
  simp [initAggSt] at hp

/-- Options of the C7 witness run: a count pivot of status by type. -/
def pivotCountOptions : StatsOptions :=
  { groupBy := some [],
    pivot := some { rowField := .status, columnField := .type, action := some .count,
                    valueField := none } }

/-- Witness for C7: a concrete one-issue loop run, with the cell bound read
off through the theorem. -/
theorem c7_cardinality_le_count_witness :
    ∃ out,
      fetchLoop (fun tok => honestBackend.searchIssues "q" 0 100 [] tok)
          pivotCountOptions none none 40 none (initAggSt pivotCountOptions) 0 0 = .ok out
        ∧ ∀ p ∈ out.1.pivotData, ∀ q ∈ p.2, q.2.values.length ≤ q.2.count := by
  exact ⟨_, rfl, c7_cardinality_le_count
    (fun tok => honestBackend.searchIssues "q" 0 100 [] tok)
    pivotCountOptions none none _ rfl⟩

/-! ## C3: count pivots with single-valued dimensions -/

theorem setKey_mem_self {α : Type} (m : List (String × α)) (k : String) (v : α) :
    (k, v) ∈ setKey m k v := by
  induction m with
  | nil => simp [setKey]
  | cons q rest ih =>
    obtain ⟨k1, v1⟩ := q
    by_cases hq : k1 = k
    · subst hq
      rw [show setKey ((k1, v1) :: rest) k1 v = (k1, v) :: rest from by simp [setKey]]
      exact List.mem_cons_self _ _
    · rw [show setKey ((k1, v1) :: rest) k v = (k1, v1) :: setKey rest k v from by
        simp [setKey, hq]]
      exact List.mem_cons_of_mem _ ih

theorem mem_setKey_of_ne {α : Type} (m : List (String × α)) (k : String) (v : α)
    (p : String × α) (hp : p ∈ m) (hne : p.1 ≠ k) : p ∈ setKey m k v := by
  induction m with
  | nil => cases hp
  | cons q rest ih =>
    obtain ⟨k1, v1⟩ := q
    by_cases hq : k1 = k
    · subst hq
      rw [show setKey ((k1, v1) :: rest) k1 v = (k1, v) :: rest from by simp [setKey]]
      rcases List.mem_cons.1 hp with h | h
      · exact absurd (congrArg Prod.fst h) hne
      · exact List.mem_cons_of_mem _ h
    · rw [show setKey ((k1, v1) :: rest) k v = (k1, v1) :: setKey rest k v from by
        simp [setKey, hq]]
      rcases List.mem_cons.1 hp with h | h
      · exact h ▸ List.mem_cons_self _ _
      · exact List.mem_cons_of_mem _ (ih h)

theorem getKey_of_mem_nodup {α : Type} (m : List (String × α)) (k : String) (v : α)
    (hnd : (keysOf m).Nodup) (hp : (k, v) ∈ m) : getKey m k = some v := by
  induction m with
  | nil => cases hp
  | cons q rest ih =>
    obtain ⟨k1, v1⟩ := q
    simp only [keysOf, List.map_cons, List.nodup_cons] at hnd
    rcases List.mem_cons.1 hp with h | h
    · cases h
      simp [getKey]
    · have hne : k1 ≠ k := by
        intro hc
        subst hc
        exact hnd.1 (List.mem_map.2 ⟨(k1, v), h, rfl⟩)
      simp only [getKey, if_neg hne]
      exact ih hnd.2 h

theorem mem_keysOf_getKey {α : Type} (m : List (String × α)) (k : String)
    (h : k ∈ keysOf m) : ∃ v, getKey m k = some v := by
  induction m with
  | nil => cases h
  | cons q rest ih =>
    obtain ⟨k1, v1⟩ := q
    rcases List.mem_cons.1 h with h1 | h1
    · subst h1
      exact ⟨v1, by simp [getKey]⟩
    · by_cases hq : k1 = k
      · subst hq
        exact ⟨v1, by simp [getKey]⟩
      · obtain ⟨v, hv⟩ := ih h1
        exact ⟨v, by simp [getKey, hq, hv]⟩

theorem intSum_natCast (l : List Nat) :
    ((l.map (fun n : Nat => (n : Int))).sum) = (l.sum : Int) := by
  induction l with
  | nil => rfl
  | cons x r ih =>
    simp only [List.map_cons, List.sum_cons]
    rw [ih]
    push_cast
    ring

/-- Bookkeeping invariant of the pivot accumulators: the row-totals map is
keyed exactly by the rows of the cell matrix, the column-totals map exactly
by its inner column keys, all key lists are duplicate-free, and both totals
maps sum their counts to the grand count. -/
structure PivotInv (st : AggSt) : Prop where
  rowKeys : ∀ k, k ∈ keysOf st.pivotRowTotals ↔ k ∈ keysOf st.pivotData
  colKeys : ∀ k, k ∈ keysOf st.pivotColTotals ↔ ∃ p ∈ st.pivotData, k ∈ keysOf p.2
  dataNodup : (keysOf st.pivotData).Nodup
  rowNodup : (keysOf st.pivotRowTotals).Nodup
  colNodup : (keysOf st.pivotColTotals).Nodup
  rowSum : (st.pivotRowTotals.map (fun p => p.2.count)).sum = st.pivotGrand.count
  colSum : (st.pivotColTotals.map (fun p => p.2.count)).sum = st.pivotGrand.count

theorem innerKeys_pivotStep (st : AggSt) (row col : String) (cell2 : Cell) (k : String)
    (hnd : (keysOf st.pivotData).Nodup) :
    (∃ p ∈ setKey st.pivotData row (setKey (getKeyD st.pivotData row []) col cell2),
        k ∈ keysOf p.2)
      ↔ (∃ p ∈ st.pivotData, k ∈ keysOf p.2) ∨ k = col := by
  constructor
  · rintro ⟨p, hp, hk⟩
    rcases mem_setKey_elim _ _ _ p hp with hpn | hpo
    · subst hpn
      simp only at hk
      rcases (mem_keysOf_setKey _ _ _ _).1 hk with hkm | hkc
      · rcases getKeyD_cases st.pivotData row ([] : List (String × Cell)) with
          ⟨hd, _⟩ | ⟨m, hgk, hd⟩
        · rw [hd] at hkm; cases hkm
        · rw [hd] at hkm
          exact Or.inl ⟨(row, m), getKey_mem _ _ _ hgk, hkm⟩
      · exact Or.inr hkc
    · exact Or.inl ⟨p, hpo, hk⟩
  · rintro (⟨p, hp, hk⟩ | hkc)
    · by_cases hpr : p.1 = row
      · have hpmem : (row, p.2) ∈ st.pivotData := by
          rw [← hpr]
          exact hp
        have hget : getKey st.pivotData row = some p.2 :=
          getKey_of_mem_nodup _ _ _ hnd hpmem
        refine ⟨(row, setKey (getKeyD st.pivotData row []) col cell2),
          setKey_mem_self _ _ _, ?_⟩
        simp only
        refine (mem_keysOf_setKey _ _ _ _).2 (Or.inl ?_)
        rw [getKeyD_eq, hget, Option.getD_some]
        exact hk
      · exact ⟨p, mem_setKey_of_ne _ _ _ p hp hpr, hk⟩
    · refine ⟨(row, setKey (getKeyD st.pivotData row []) col cell2),
        setKey_mem_self _ _ _, ?_⟩
      simp only
      exact (mem_keysOf_setKey _ _ _ _).2 (Or.inr hkc)

theorem pivotInv_pivotStep (st : AggSt) (row col : String) (nv : Int) (key : String)
    (h : PivotInv st) : PivotInv (pivotStep st row col nv key) := by
  refine
    { rowKeys := ?_, colKeys := ?_, dataNodup := ?_, rowNodup := ?_, colNodup := ?_,
      rowSum := ?_, colSum := ?_ }
  · intro k
    show k ∈ keysOf (setKey st.pivotRowTotals row _) ↔ k ∈ keysOf (setKey st.pivotData row _)
    rw [mem_keysOf_setKey, mem_keysOf_setKey, h.rowKeys k]
  · intro k
    show k ∈ keysOf (setKey st.pivotColTotals col _) ↔ _
    rw [mem_keysOf_setKey, h.colKeys k]
    exact (innerKeys_pivotStep st row col _ k h.dataNodup).symm
  · exact nodup_keysOf_setKey _ _ _ h.dataNodup
  · exact nodup_keysOf_setKey _ _ _ h.rowNodup
  · exact nodup_keysOf_setKey _ _ _ h.colNodup
  · show ((setKey st.pivotRowTotals row _).map (fun p => p.2.count)).sum
      = st.pivotGrand.count + 1
    rw [totCountSum_setKey st.pivotRowTotals row _, h.rowSum]
  · show ((setKey st.pivotColTotals col _).map (fun p => p.2.count)).sum
      = st.pivotGrand.count + 1
    rw [totCountSum_setKey st.pivotColTotals col _, h.colSum]

theorem pivotInv_pivotCross (st : AggSt) (ra ca : List String) (nv : Int) (key : String)
    (h : PivotInv st) : PivotInv (pivotCross st ra ca nv key) := by
  unfold pivotCross
  induction ra generalizing st with
  | nil => exact h
  | cons r rs ih =>
    simp only [List.foldl_cons]
    apply ih
    clear ih
    induction ca generalizing st with
    | nil => exact h
    | cons c cs ihc =>
      simp only [List.foldl_cons]
      exact ihc (pivotStep st r c nv key) (pivotInv_pivotStep st r c nv key h)

theorem pivotInv_of_pivotView_eq (st st2 : AggSt) (h : pivotView st2 = pivotView st)
    (hInv : PivotInv st) : PivotInv st2 := by
  have h1 : st2.pivotData = st.pivotData := congrArg (fun t => t.1) h
  have h2 : st2.pivotRowTotals = st.pivotRowTotals := congrArg (fun t => t.2.1) h
  have h3 : st2.pivotColTotals = st.pivotColTotals := congrArg (fun t => t.2.2.1) h
  have h4 : st2.pivotGrand = st.pivotGrand := congrArg (fun t => t.2.2.2) h
  exact
    { rowKeys := by rw [h2, h1]; exact hInv.rowKeys
      colKeys := by rw [h3, h1]; exact hInv.colKeys
      dataNodup := by rw [h1]; exact hInv.dataNodup
      rowNodup := by rw [h2]; exact hInv.rowNodup
      colNodup := by rw [h3]; exact hInv.colNodup
      rowSum := by rw [h2, h4]; exact hInv.rowSum
      colSum := by rw [h3, h4]; exact hInv.colSum }

/-- Grand-count tracking: the grand counter equals the analyzed counter. -/
def grandMatches (st : AggSt) : Prop := st.pivotGrand.count = st.analyzed

theorem grandCount_colFold (st : AggSt) (row : String) (cols : List String) (nv : Int)
    (key : String) :
    (cols.foldl (fun s c => pivotStep s row c nv key) st).pivotGrand.count
      = st.pivotGrand.count + cols.length := by
  induction cols generalizing st with
  | nil => rfl
  | cons c cs ih =>
    simp only [List.foldl_cons, List.length_cons]
    rw [ih (pivotStep st row c nv key)]
    show st.pivotGrand.count + 1 + cs.length = _
    omega

theorem grandCount_pivotCross (st : AggSt) (ra ca : List String) (nv : Int) (key : String) :
    (pivotCross st ra ca nv key).pivotGrand.count
      = st.pivotGrand.count + ra.length * ca.length := by
  unfold pivotCross
  induction ra generalizing st with
  | nil => simp
  | cons r rs ih =>
    simp only [List.foldl_cons, List.length_cons]
    rw [ih (ca.foldl (fun st2 col => pivotStep st2 r col nv key) st)]
    rw [grandCount_colFold]
    ring

/-- Single-valued dimensions extract exactly one value per issue. -/
theorem getFieldValue_single_len (f : StatsField) (hf : f ≠ .labels ∧ f ≠ .components)
    (i : Issue) (out : FieldOut) (h : getFieldValue i f = .ok out) :
    out.toList.length = 1 := by
  cases f with
  | labels => exact absurd rfl hf.1
  | components => exact absurd rfl hf.2
  | project =>
    unfold getFieldValue at h
    cases hk : getProjectFromIssueKey i.key with
    | error e => rw [hk] at h; cases h
    | ok pk =>
      rw [hk] at h
      simp only [Except.map] at h
      cases h
      rfl
  | status => cases h; rfl
  | type => cases h; rfl
  | priority => cases h; rfl
  | assignee => cases h; rfl
  | reporter => cases h; rfl
  | resolution => cases h; rfl

theorem c3_inv_processIssue (options : StatsOptions) (pa ta : Option (List String))
    (pc : PivotConfig) (hpc : options.pivot = some pc)
    (hrow : pc.rowField ≠ .labels ∧ pc.rowField ≠ .components)
    (hcol : pc.columnField ≠ .labels ∧ pc.columnField ≠ .components)
    (st st2 : AggSt) (issue : Issue)
    (h : processIssue options pa ta st issue = .ok st2)
    (hInv : PivotInv st) (hga : grandMatches st) :
    PivotInv st2 ∧ grandMatches st2 := by
  rcases processIssue_ok_shape options pa ta st st2 issue h with h1 | ⟨stMid, hMa, hMp, hrest⟩
  · subst h1; exact ⟨hInv, hga⟩
  · have hMidInv := pivotInv_of_pivotView_eq st stMid hMp hInv
    have hMidGrand : stMid.pivotGrand = st.pivotGrand := congrArg (fun t => t.2.2.2) hMp
    rcases hrest with ⟨hnone, _⟩ | ⟨pc2, ro, co, hp2, hro, hco, heq⟩
    · rw [hpc] at hnone; cases hnone
    · rw [hpc] at hp2
      cases hp2
      subst heq
      refine ⟨pivotInv_pivotCross stMid _ _ _ _ hMidInv, ?_⟩
      unfold grandMatches
      rw [analyzed_pivotCross, grandCount_pivotCross]
      rw [getFieldValue_single_len pc.rowField hrow issue ro hro,
        getFieldValue_single_len pc.columnField hcol issue co hco]
      rw [hMidGrand, hMa]
      unfold grandMatches at hga
      omega

theorem c3_inv_processIssues (options : StatsOptions) (pa ta : Option (List String))
    (pc : PivotConfig) (hpc : options.pivot = some pc)
    (hrow : pc.rowField ≠ .labels ∧ pc.rowField ≠ .components)
    (hcol : pc.columnField ≠ .labels ∧ pc.columnField ≠ .components)
    (issues : List Issue) : ∀ st st2 : AggSt,
    processIssues options pa ta st issues = .ok st2 →
    PivotInv st → grandMatches st → PivotInv st2 ∧ grandMatches st2 := by
  induction issues with
  | nil =>
    intro st st2 h hInv hga
    simp only [processIssues] at h
    cases h
    exact ⟨hInv, hga⟩
  | cons i rest ih =>
    intro st st2 h hInv hga
    simp only [processIssues] at h
    cases hp : processIssue options pa ta st i with
    | error e => rw [hp] at h; cases h
    | ok stM =>
      rw [hp] at h
      obtain ⟨hI, hG⟩ := c3_inv_processIssue options pa ta pc hpc hrow hcol st stM i hp hInv hga
      exact ih stM st2 h hI hG

theorem c3_inv_fetchLoop (search : Option String → Except String SearchPage)
    (options : StatsOptions) (pa ta : Option (List String))
    (pc : PivotConfig) (hpc : options.pivot = some pc)
    (hrow : pc.rowField ≠ .labels ∧ pc.rowField ≠ .components)
    (hcol : pc.columnField ≠ .labels ∧ pc.columnField ≠ .components) :
    ∀ (fuel : Nat) (tok : Option String) (st : AggSt) (tot calls : Nat) out,
    fetchLoop search options pa ta fuel tok st tot calls = .ok out →
    PivotInv st → grandMatches st → PivotInv out.1 ∧ grandMatches out.1 := by
  intro fuel
  induction fuel with
  | zero =>
    intro tok st tot calls out h hInv hga
    simp only [fetchLoop] at h
    cases h
    exact ⟨hInv, hga⟩
  | succ n ih =>
    intro tok st tot calls out h hInv hga
    simp only [fetchLoop] at h
    cases hs : search tok with
    | error e => simp only [hs] at h; cases h
    | ok resp =>
      simp only [hs] at h
      split at h
      · cases h; exact ⟨hInv, hga⟩
      · cases hp : processIssues options pa ta st resp.issues with
        | error e => simp only [hp] at h; cases h
        | ok st2 =>
          simp only [hp] at h
          obtain ⟨hI, hG⟩ :=
            c3_inv_processIssues options pa ta pc hpc hrow hcol resp.issues st st2 hp hInv hga
          split at h
          · cases h; exact ⟨hI, hG⟩
          · exact ih _ _ _ _ _ h hI hG

theorem pivotInv_init (options : StatsOptions) : PivotInv (initAggSt options) := by
  constructor <;> simp [initAggSt, keysOf]

theorem valsOf_map_tab {β : Type} (l : List String) (g : String → β) :
    valsOf (l.map (fun x => (x, g x))) = l.map g := by
  unfold valsOf
  rw [List.map_map]
  rfl

theorem sum_over_perm_keys (m : List (String × Tot)) (l : List String)
    (hnd : (keysOf m).Nodup) (hl : l.Nodup) (hmem : ∀ k, k ∈ l ↔ k ∈ keysOf m) :
    (l.map (fun k => (getKeyD m k {}).count)).sum = (m.map (fun p => p.2.count)).sum := by
  have hperm : List.Perm l (keysOf m) := (List.perm_ext_iff_of_nodup hl hnd).2 hmem
  have h2 := (hperm.map (fun k => (getKeyD m k ({} : Tot)).count)).sum_eq
  rw [h2, sum_keys_getKeyD m (fun t => t.count) {} hnd]

theorem columns_mem_iff (st : AggSt) (hnd : (keysOf st.pivotData).Nodup) (k : String) :
    k ∈ sortStr (jsDedup ((sortStr (keysOf st.pivotData)).flatMap
        (fun r => keysOf (getKeyD st.pivotData r []))))
      ↔ ∃ p ∈ st.pivotData, k ∈ keysOf p.2 := by
  rw [mem_sortStr, mem_jsDedup, List.mem_flatMap]
  constructor
  · rintro ⟨r, hr, hk⟩
    rw [mem_sortStr] at hr
    obtain ⟨m, hm⟩ := mem_keysOf_getKey st.pivotData r hr
    rw [getKeyD_eq, hm, Option.getD_some] at hk
    exact ⟨(r, m), getKey_mem _ _ _ hm, hk⟩
  · rintro ⟨p, hp, hk⟩
    refine ⟨p.1, ?_, ?_⟩
    · rw [mem_sortStr]
      exact List.mem_map.2 ⟨p, hp, rfl⟩
    · have hget : getKey st.pivotData p.1 = some p.2 :=
        getKey_of_mem_nodup _ _ _ hnd hp
      rw [getKeyD_eq, hget, Option.getD_some]
      exact hk

/-- Totals of a finalized count pivot under the bookkeeping invariant: the
grand total is the analyzed count, and both totals maps sum to it. -/
theorem c3_totals_of_inv (pc : PivotConfig) (rn : Option String) (st : AggSt)
    (hact : pc.action.getD .count = .count) (hInv : PivotInv st) (hga : grandMatches st) :
    (finalizePivot pc rn st).totals.grand = (st.analyzed : Int)
    ∧ (valsOf (finalizePivot pc rn st).totals.rows).sum
        = (finalizePivot pc rn st).totals.grand
    ∧ (valsOf (finalizePivot pc rn st).totals.columns).sum
        = (finalizePivot pc rn st).totals.grand := by
  have hgrand : (finalizePivot pc rn st).totals.grand
      = grandValue (pc.action.getD .count) st := rfl
  have hgrand2 : (finalizePivot pc rn st).totals.grand = (st.pivotGrand.count : Int) := by
    rw [hgrand, hact]
    rfl
  have hrowsEq : (finalizePivot pc rn st).totals.rows
      = (sortStr (keysOf st.pivotData)).map
          (fun row => (row, rowTotalValue (pc.action.getD .count) st row)) := rfl
  have hcolsEq : (finalizePivot pc rn st).totals.columns
      = (sortStr (jsDedup ((sortStr (keysOf st.pivotData)).flatMap
          (fun r => keysOf (getKeyD st.pivotData r []))))).map
          (fun col => (col, colTotalValue (pc.action.getD .count) st
            (sortStr (keysOf st.pivotData)) col)) := rfl
  refine ⟨?_, ?_, ?_⟩
  · rw [hgrand2]
    exact_mod_cast congrArg Nat.cast hga
  · rw [hrowsEq, valsOf_map_tab, hact]
    have hfun : rowTotalValue .count st
        = (fun row => (((getKeyD st.pivotRowTotals row {}).count : Nat) : Int)) := rfl
    rw [hfun]
    rw [show (sortStr (keysOf st.pivotData)).map
          (fun row => (((getKeyD st.pivotRowTotals row {}).count : Nat) : Int))
        = ((sortStr (keysOf st.pivotData)).map
            (fun row => (getKeyD st.pivotRowTotals row ({} : Tot)).count)).map
            (fun n : Nat => (n : Int)) from by rw [List.map_map]; rfl]
    rw [intSum_natCast]
    rw [sum_over_perm_keys st.pivotRowTotals (sortStr (keysOf st.pivotData))
      hInv.rowNodup (nodup_sortStr _ hInv.dataNodup)
      (fun k => by rw [mem_sortStr]; exact (hInv.rowKeys k).symm)]
    rw [hInv.rowSum, hgrand2]
  · rw [hcolsEq, valsOf_map_tab, hact]
    have hfun : colTotalValue .count st (sortStr (keysOf st.pivotData))
        = (fun col => (((getKeyD st.pivotColTotals col {}).count : Nat) : Int)) := rfl
    rw [hfun]
    rw [show (sortStr (jsDedup ((sortStr (keysOf st.pivotData)).flatMap
            (fun r => keysOf (getKeyD st.pivotData r []))))).map
          (fun col => (((getKeyD st.pivotColTotals col {}).count : Nat) : Int))
        = ((sortStr (jsDedup ((sortStr (keysOf st.pivotData)).flatMap
            (fun r => keysOf (getKeyD st.pivotData r []))))).map
            (fun col => (getKeyD st.pivotColTotals col ({} : Tot)).count)).map
            (fun n : Nat => (n : Int)) from by rw [List.map_map]; rfl]
    rw [intSum_natCast]
    rw [sum_over_perm_keys st.pivotColTotals _
      hInv.colNodup (nodup_sortStr _ (nodup_jsDedup _))
      (fun k => by
        rw [columns_mem_iff st hInv.dataNodup k]
        exact (hInv.colKeys k).symm)]
    rw [hInv.colSum, hgrand2]

/-- C3.  For every count-action pivot whose row and column dimensions are
single-valued, the returned pivot satisfies `totals.grand = analyzed` and
the sums over the row totals and over the column totals both equal the grand
total. -/
theorem c3_count_pivot_totals (b : Backend) (jql : String) (options : StatsOptions)
    (pa ta : Option (List String)) (res : StatsResult) (pc : PivotConfig)
    (hpc : options.pivot = some pc)
    (hact : pc.action.getD .count = .count)
    (hrow : pc.rowField ≠ .labels ∧ pc.rowField ≠ .components)
    (hcol : pc.columnField ≠ .labels ∧ pc.columnField ≠ .components)
    (h : getBacklogStats b jql options pa ta = .ok res) :
    ∃ p, res.pivot = some p
      ∧ p.totals.grand = (res.analyzed : Int)
      ∧ (valsOf p.totals.rows).sum = p.totals.grand
      ∧ (valsOf p.totals.columns).sum = p.totals.grand := by
  obtain ⟨bf, out, rn, hloop, rfl⟩ := getBacklogStats_ok_full b jql options pa ta res h
  obtain ⟨hInv, hga⟩ := c3_inv_fetchLoop _ options pa ta pc hpc hrow hcol 40 none
    (initAggSt options) 0 0 out hloop (pivotInv_init options) rfl
  obtain ⟨hg, hr, hc⟩ := c3_totals_of_inv pc rn out.1 hact hInv hga
  refine ⟨finalizePivot pc rn out.1, ?_, ?_, hr, hc⟩
  · simp [buildStatsResult, hpc]
  · rw [hg]
    rfl

/-- Witness for C3: the spec scenario of three issues — two `(Bug, Done)`
and one `(Story, Open)` — aggregated with a count pivot, via the theorem. -/
theorem c3_count_pivot_totals_witness :
    ∃ p res, getBacklogStats
        (singlePageBackend
          [{ key := "P-1", fields := [("issuetype", .named "Bug"), ("status", .named "Done")] },
           { key := "P-2", fields := [("issuetype", .named "Bug"), ("status", .named "Done")] },
           { key := "P-3", fields := [("issuetype", .named "Story"), ("status", .named "Open")] }])
        "project = P" pivotCountOptions none none = .ok res
      ∧ res.pivot = some p
      ∧ p.totals.grand = (res.analyzed : Int)
      ∧ (valsOf p.totals.rows).sum = p.totals.grand
      ∧ (valsOf p.totals.columns).sum = p.totals.grand := by
  obtain ⟨p, hp, hg, hr, hc⟩ := c3_count_pivot_totals
    (singlePageBackend
      [{ key := "P-1", fields := [("issuetype", .named "Bug"), ("status", .named "Done")] },
       { key := "P-2", fields := [("issuetype", .named "Bug"), ("status", .named "Done")] },
       { key := "P-3", fields := [("issuetype", .named "Story"), ("status", .named "Open")] }])
    "project = P" pivotCountOptions none none _
    { rowField := .status, columnField := .type, action := some .count, valueField := none }
    rfl rfl (by exact ⟨by decide, by decide⟩) (by exact ⟨by decide, by decide⟩) rfl
  exact ⟨p, _, rfl, hp, hg, hr, hc⟩

/-! ## C9: a malformed issue key aborts the whole aggregation -/

theorem getFieldValue_ok (issue : Issue) (f : StatsField)
    (hk : ∃ pk, getProjectFromIssueKey issue.key = .ok pk) :
    ∃ out, getFieldValue issue f = .ok out := by
  obtain ⟨pk, hpk⟩ := hk
  cases f
  case project => exact ⟨.single pk, by simp [getFieldValue, hpk, Except.map]⟩
  all_goals exact ⟨_, rfl⟩

theorem groupByStep_ok (issue : Issue)
    (hk : ∃ pk, getProjectFromIssueKey issue.key = .ok pk) (st : AggSt) (f : StatsField) :
    ∃ st2, groupByStep issue st f = .ok st2 := by
  obtain ⟨out, hout⟩ := getFieldValue_ok issue f hk
  cases h2 : groupByStep issue st f with
  | ok st2 => exact ⟨st2, rfl⟩
  | error e =>
    unfold groupByStep at h2
    simp only [hout, bind, Except.bind, pure, Except.pure] at h2
    cases h2

theorem groupFold_ok (issue : Issue)
    (hk : ∃ pk, getProjectFromIssueKey issue.key = .ok pk) (fields : List StatsField) :
    ∀ st : AggSt, ∃ st2, fields.foldlM (groupByStep issue) st = .ok st2 := by
  induction fields with
  | nil => intro st; exact ⟨st, rfl⟩
  | cons f fs ih =>
    intro st
    obtain ⟨stM, hstM⟩ := groupByStep_ok issue hk st f
    obtain ⟨st2, hst2⟩ := ih stM
    refine ⟨st2, ?_⟩
    rw [List.foldlM_cons, hstM]
    exact hst2

theorem processTail_ok (options : StatsOptions) (issue : Issue)
    (hk : ∃ pk, getProjectFromIssueKey issue.key = .ok pk) (st : AggSt) :
    ∃ st2, processTail options issue st = .ok st2 := by
  obtain ⟨stM, hstM⟩ := groupFold_ok issue hk (options.groupBy.getD []) st
  cases h2 : processTail options issue st with
  | ok st2 => exact ⟨st2, rfl⟩
  | error e =>
    unfold processTail at h2
    simp only [hstM, bind, Except.bind] at h2
    cases hpv : options.pivot with
    | none =>
      simp only [hpv, pure, Except.pure] at h2
      cases h2
    | some pc =>
      obtain ⟨ro, hro⟩ := getFieldValue_ok issue pc.rowField hk
      obtain ⟨co, hco⟩ := getFieldValue_ok issue pc.columnField hk
      rw [hpv] at h2
      unfold applyPivot at h2
      simp only [hro, hco, bind, Except.bind, pure, Except.pure] at h2
      cases h2

theorem applyDefaults_ok (issue : Issue) (tn : String) (st : AggSt)
    (hs : ∃ sn, reqName (fieldOf issue "status") = .ok sn) :
    ∃ st2, applyDefaults issue tn st = .ok st2 := by
  obtain ⟨sn, hsn⟩ := hs
  cases h2 : applyDefaults issue tn st with
  | ok st2 => exact ⟨st2, rfl⟩
  | error e =>
    unfold applyDefaults at h2
    simp only [hsn, bind, Except.bind, pure, Except.pure] at h2
    cases h2

/-- Sufficient condition for one issue to pass through `processIssue` without
an exception: a parseable key, an issue-type object, and (when the default
aggregations run) a status object. -/
def issueProcessable (options : StatsOptions) (issue : Issue) : Prop :=
  (∃ pk, getProjectFromIssueKey issue.key = .ok pk)
  ∧ (∃ tn, reqName (fieldOf issue "issuetype") = .ok tn)
  ∧ (options.groupBy.isNone = true → ∃ sn, reqName (fieldOf issue "status") = .ok sn)

theorem processIssue_ok_of_processable (options : StatsOptions)
    (pa ta : Option (List String)) (issue : Issue)
    (hp : issueProcessable options issue) (st : AggSt) :
    ∃ st2, processIssue options pa ta st issue = .ok st2 := by
  obtain ⟨⟨pk, hpk⟩, ⟨tn, htn⟩, hstat⟩ := hp
  unfold processIssue
  simp only [hpk, bind, Except.bind]
  by_cases hpa : isProjectAllowed pk pa = true
  · rw [if_neg (by simp [hpa])]
    simp only [htn]
    by_cases hta : isIssueTypeAllowed tn ta = true
    · rw [if_neg (by simp [hta])]
      by_cases hgb : options.groupBy.isNone = true
      · rw [if_pos hgb]
        obtain ⟨stB, hstB⟩ :=
          applyDefaults_ok issue tn { st with analyzed := st.analyzed + 1 } (hstat hgb)
        simp only [hstB]
        exact processTail_ok options issue ⟨pk, hpk⟩ stB
      · rw [if_neg hgb]
        simp only [pure, Except.pure]
        exact processTail_ok options issue ⟨pk, hpk⟩ _
    · rw [if_pos (by simp [hta])]
      exact ⟨st, rfl⟩
  · rw [if_pos (by simp [hpa])]
    exact ⟨st, rfl⟩

theorem processIssues_error_at_bad (options : StatsOptions) (pa ta : Option (List String))
    (pre : List Issue) (bad : Issue) (post : List Issue) (msg : String)
    (hpre : ∀ i ∈ pre, issueProcessable options i)
    (hbad : getProjectFromIssueKey bad.key = .error msg) :
    ∀ st, processIssues options pa ta st (pre ++ bad :: post) = .error msg := by
  induction pre with
  | nil =>
    intro st
    simp only [List.nil_append, processIssues]
    have hpb : processIssue options pa ta st bad = .error msg := by
      unfold processIssue
      simp [hbad, bind, Except.bind]
    rw [hpb]
  | cons i pre2 ih =>
    intro st
    simp only [List.cons_append, processIssues]
    obtain ⟨stM, hstM⟩ := processIssue_ok_of_processable options pa ta i
      (hpre i (List.mem_cons_self _ _)) st
    rw [hstM]
    exact ih (fun j hj => hpre j (List.mem_cons_of_mem _ hj)) stM

theorem fetchLoop_error_first_page (search : Option String → Except String SearchPage)
    (options : StatsOptions) (pa ta : Option (List String))
    (page : SearchPage) (pre : List Issue) (bad : Issue) (post : List Issue) (msg : String)
    (hs : search none = .ok page)
    (hpage : page.issues = pre ++ bad :: post)
    (hpre : ∀ i ∈ pre, issueProcessable options i)
    (hbad : getProjectFromIssueKey bad.key = .error msg)
    (st : AggSt) (tot calls : Nat) (fuel : Nat) :
    fetchLoop search options pa ta (fuel + 1) none st tot calls = .error msg := by
  simp only [fetchLoop, hs]
  have hlen : ¬ page.issues.length = 0 := by
    rw [hpage]
    simp
  rw [if_neg hlen]
  rw [hpage, processIssues_error_at_bad options pa ta pre bad post msg hpre hbad st]

/-- C9.  If the first page the backend returns contains an issue whose key
does not match the issue-key pattern, and the issues before it are
themselves processable, the whole aggregation aborts with the
`Invalid issue key format` error of that issue — the issue is not skipped.
(The hypotheses `boardId = none` and no custom value field keep the run free
of unrelated backend lookups.) -/
theorem c9_invalid_key_aborts (b : Backend) (jql : String) (options : StatsOptions)
    (pa ta : Option (List String))
    (hboard : options.boardId = none) (hnf : needsFieldNames options = false)
    (page : SearchPage) (pre : List Issue) (bad : Issue) (post : List Issue)
    (hs : b.searchIssues (buildJql jql [] options) 0 100 (computeSearchFields options) none
      = .ok page)
    (hpage : page.issues = pre ++ bad :: post)
    (hpre : ∀ i ∈ pre, issueProcessable options i)
    (hbadkey : issueKeyParts bad.key = none) :
    getBacklogStats b jql options pa ta
      = .error ("Invalid issue key format: " ++ bad.key) := by
  have hbad : getProjectFromIssueKey bad.key
      = .error ("Invalid issue key format: " ++ bad.key) := by
    unfold getProjectFromIssueKey
    rw [hbadkey]
  have hb : resolveBoardFilter b options = .ok [] := by
    unfold resolveBoardFilter
    rw [hboard]
    rfl
  have hfn : resolveFieldName b options = .ok none := by
    unfold resolveFieldName
    rw [hnf]
    rfl
  have hloop : fetchLoop
      (fun tok => b.searchIssues (buildJql jql [] options) 0 100
        (computeSearchFields options) tok)
      options pa ta 40 none (initAggSt options) 0 0
      = .error ("Invalid issue key format: " ++ bad.key) :=
    fetchLoop_error_first_page
      (fun tok => b.searchIssues (buildJql jql [] options) 0 100
        (computeSearchFields options) tok)
      options pa ta page pre bad post ("Invalid issue key format: " ++ bad.key)
      hs hpage hpre hbad (initAggSt options) 0 0 39
  unfold getBacklogStats getBacklogStatsCore
  simp only [hb, hfn, bind, Except.bind, hloop, Except.map]

/-- Witness for C9: a concrete backend whose single page holds one good
issue followed by one with a malformed key. -/
def badKeyBackend : Backend :=
  { searchIssues := fun _ _ _ _ _ => .ok
      { issues := [{ key := "P-1", fields := [("issuetype", .named "Bug"),
                     ("status", .named "Open")] },
                   { key := "not a key", fields := [("issuetype", .named "Bug"),
                     ("status", .named "Open")] }],
        total := some 2, isLast := true }
    getBoard := fun _ => .error "unused"
    getFields := .ok []
    getSprint := fun _ => .error "unused"
    getIssueChangelog := fun _ _ _ => .error "unused" }

theorem c9_invalid_key_aborts_witness :
    getBacklogStats badKeyBackend "project = P" {} none none
      = .error "Invalid issue key format: not a key" := by
  have h := c9_invalid_key_aborts badKeyBackend "project = P" {} none none rfl rfl
    { issues := [{ key := "P-1", fields := [("issuetype", .named "Bug"),
                   ("status", .named "Open")] },
                 { key := "not a key", fields := [("issuetype", .named "Bug"),
                   ("status", .named "Open")] }],
      total := some 2, isLast := true }
    [{ key := "P-1", fields := [("issuetype", .named "Bug"), ("status", .named "Open")] }]
    { key := "not a key", fields := [("issuetype", .named "Bug"), ("status", .named "Open")] }
    [] rfl rfl
    (by
      intro i hi
      rcases List.mem_singleton.1 hi with rfl
      exact ⟨⟨"P", by decide⟩, ⟨"Bug", rfl⟩, fun _ => ⟨"Open", rfl⟩⟩)
    (by decide)
  exact h

/-! ## C8: errors propagate out of the report unretried -/

theorem fetchLoop_search_error (search : Option String → Except String SearchPage)
    (options : StatsOptions) (pa ta : Option (List String)) (tok : Option String)
    (st : AggSt) (tot calls fuel : Nat) (e : String) (hs : search tok = .error e) :
    fetchLoop search options pa ta (fuel + 1) tok st tot calls = .error e := by
  simp only [fetchLoop, hs]

/-- A backend whose every search call fails makes the whole aggregation fail
with that error (given a board-free query and a working field catalog). -/
theorem getBacklogStats_search_error (b : Backend) (jql : String)
    (options : StatsOptions) (pa ta : Option (List String)) (e : String)
    (hboard : options.boardId = none)
    (hf : needsFieldNames options = true → ∃ fl, b.getFields = .ok fl)
    (hse : ∀ jq n m f t, b.searchIssues jq n m f t = .error e) :
    getBacklogStats b jql options pa ta = .error e := by
  have hb : resolveBoardFilter b options = .ok [] := by
    unfold resolveBoardFilter
    rw [hboard]
    rfl
  have hfn : ∃ rn, resolveFieldName b options = .ok rn := by
    by_cases h : needsFieldNames options = true
    · obtain ⟨fl, hfl⟩ := hf h
      refine ⟨resolveValueFieldName fl options, ?_⟩
      unfold resolveFieldName
      rw [if_pos h]
      simp only [hfl, bind, Except.bind]
      rfl
    · refine ⟨none, ?_⟩
      unfold resolveFieldName
      rw [if_neg h]
      rfl
  obtain ⟨rn, hrn⟩ := hfn
  have hloop : fetchLoop
      (fun tok => b.searchIssues (buildJql jql [] options) 0 100
        (computeSearchFields options) tok)
      options pa ta 40 none (initAggSt options) 0 0 = .error e :=
    fetchLoop_search_error _ options pa ta none (initAggSt options) 0 0 39 e
      (hse _ _ _ _ _)
  unfold getBacklogStats getBacklogStatsCore
  simp only [hb, hrn, bind, Except.bind, hloop, Except.map]

theorem getSprintStats_search_error (b : Backend) (options : ReportOptions)
    (ita pa : Option (List String)) (e : String) (sid : Nat)
    (hf : ∃ fl, b.getFields = .ok fl)
    (hse : ∀ jq n m f t, b.searchIssues jq n m f t = .error e) :
    getSprintStats b options ita pa sid = .error e :=
  getBacklogStats_search_error b _ _ ita pa e rfl (fun _ => hf) hse

/-- C8.  No error raised by a backend call or sub-aggregation is caught
inside the composer: if the very first backend call (the sprint lookup)
fails, the whole report fails with that error; and if every search call
fails — which makes the first sub-aggregation fail — the whole report again
fails with that single error.  `Except` leaves no room for a partial
report. -/
theorem c8_error_propagation :
    (∀ (b : Backend) (options : ReportOptions) (ita pa : Option (List String)) e,
        b.getSprint options.sprintId = .error e →
        getSprintReport b options ita pa = .error e)
    ∧ (∀ (b : Backend) (options : ReportOptions) (ita pa : Option (List String)) e
          (sprintOf : Nat → Sprint) (fl : List (String × String)),
        (∀ i, b.getSprint i = .ok (sprintOf i)) →
        b.getFields = .ok fl →
        (∀ jq n m f t, b.searchIssues jq n m f t = .error e) →
        getSprintReport b options ita pa = .error e) := by
  constructor
  · intro b options ita pa e h
    unfold getSprintReport
    simp only [h, bind, Except.bind]
  · intro b options ita pa e sprintOf fl hsprint hfields hse
    have hprev : fetchPreviousSprint b options
        = .ok (if optNatTruthy options.previousSprintId then
            some (sprintOf (options.previousSprintId.getD 0)) else none) := by
      unfold fetchPreviousSprint
      by_cases hp : optNatTruthy options.previousSprintId = true
      · rw [if_pos hp, if_pos hp]
        simp only [hsprint, bind, Except.bind]
        rfl
      · rw [if_neg hp, if_neg hp]
        rfl
    have hcs : getSprintStats b options ita pa options.sprintId = .error e :=
      getSprintStats_search_error b options ita pa e options.sprintId ⟨fl, hfields⟩ hse
    unfold getSprintReport
    simp only [hsprint, hprev, hfields, hcs, bind, Except.bind]

/-- Backend for the C8 witness: sprint and field lookups work, every search
fails with an HTTP 500. -/
def failingSearchBackend : Backend :=
  { searchIssues := fun _ _ _ _ _ => .error "HTTP 500 from search"
    getBoard := fun _ => .error "unused"
    getFields := .ok []
    getSprint := fun i => .ok { id := i, name := "Sprint", startDate := some 0 }
    getIssueChangelog := fun _ _ _ => .error "unused" }

/-- Witness for C8, applying both conjuncts at concrete backends. -/
theorem c8_error_propagation_witness :
    getSprintReport failingSearchBackend
        { sprintId := 1, storyPointsField := "customfield_1", projectKey := "P" }
        none none = .error "HTTP 500 from search"
      ∧ getSprintReport (singlePageBackend [])
        { sprintId := 1, storyPointsField := "customfield_1", projectKey := "P" }
        none none = .error "unused" := by
  constructor
  · exact c8_error_propagation.2 failingSearchBackend
      { sprintId := 1, storyPointsField := "customfield_1", projectKey := "P" }
      none none "HTTP 500 from search"
      (fun i => { id := i, name := "Sprint", startDate := some 0 }) []
      (fun i => rfl) rfl (fun jq n m f t => rfl)
  · exact c8_error_propagation.1 (singlePageBackend [])
      { sprintId := 1, storyPointsField := "customfield_1", projectKey := "P" }
      none none "unused" rfl

end JiraMcp
